import Mathlib

/-!
The wizard state machine and the step executor of migration_proto.

A shallow embedding of `main.go`: the data model, the bubbletea `Update`
function of the wizard, the step executor `executeNextStep`, the terminal
conversion + write path `performActualMigration`, and the schema mapping
`convertTwilioToRingCentral`.

Conventions of the embedding.
* Go `string` is `String`; a Go `error` is its message, and a nullable error is
  `Option String` (`none` is `nil`).
* Go `int` fields that the program only ever sets to `0`, increments, or
  decrements under a `> 0` guard (`selectedSource`, `selectedTarget`,
  `selectedAI`, `currentStep`, the step index) are `Nat`; comparisons against
  `len(..)-1` are carried out in `Int`, as Go does. The menu cursors are
  incremented only below `len(..)-1`; the one unguarded increment,
  `m.currentStep++`, overflows at `maxInt`, and `updateStepComplete` gives the
  panic that follows.
* A run-time panic (index out of range, nil dereference) is the result `none`.
* Calls to collaborators (sleep, file read, file write, the conversion
  service) are recorded in a call log `List Effect`, in call order.
* The results of the operating system and of `encoding/json` are read from a
  `World`; the bubbles widgets (`textinput`, `spinner`) are read from an `Ext`;
  the environment of the plan service (API key, HTTP exchange, plan parser) is
  read from a `PlanService`, and the JSON codec of the direct path from a
  `Codec`.
* A `Run` pairs the session with the operations issued and not yet answered;
  `runStep` is one turn of the event loop.
-/

namespace MigrationProto

/-! ## Data model -/

structure TwilioUser where
  ID : String
  Name : String
  Email : String
  PhoneNumber : String
  Status : String
deriving DecidableEq, Repr

/-- The Go field `Capabilities map[string]bool` is given as the list of its
entries in the order in which a `range` loop visits them. -/
structure TwilioLine where
  SID : String
  Number : String
  Capabilities : List (String × Bool)
  Location : String
deriving DecidableEq, Repr

structure TwilioPhoneSystem where
  Users : List TwilioUser
  Lines : List TwilioLine
deriving DecidableEq, Repr

structure RingCentralAccount where
  ID : String
  Username : String
  Contact : String
  MainNumber : String
  Active : Bool
deriving DecidableEq, Repr

structure RingCentralNumber where
  ID : String
  Number : String
  Features : List String
  Region : String
deriving DecidableEq, Repr

structure RingCentralPhoneSystem where
  Accounts : List RingCentralAccount
  Numbers : List RingCentralNumber
deriving DecidableEq, Repr

structure TodoItem where
  Step : Int
  Description : String
  Action : String
  Risk : String
  Completed : Bool
deriving DecidableEq, Repr

structure ExecutionStep where
  StepNumber : Int
  Description : String
  Status : String
  Details : String
  Error : Option String
deriving DecidableEq, Repr

structure AccountWithPriority where
  Account : TwilioUser
  Priority : Int
  Reason : String
  Risk : String
deriving DecidableEq, Repr

structure MigrationPlan where
  RecommendedOrder : List AccountWithPriority
  Reasoning : String
  RiskAssessment : String
  TodoList : List TodoItem
  EstimatedTime : String
deriving DecidableEq, Repr

structure MigrationConfig where
  SourceFile : String
  TargetFile : String
  SourceFormat : String
  TargetFormat : String
  UseAI : Bool
deriving DecidableEq, Repr

/-- The UI states, in declaration order (`iota`). -/
inductive state where
  | enteringSource
  | selectingSourceFormat
  | enteringTarget
  | selectingTargetFormat
  | askingAIPreference
  | showingPlan
  | confirmingPlan
  | executingPlan
  | completed
deriving DecidableEq, Repr

/-- The part of `textinput.Model` that the program reads or writes. -/
structure TextInput where
  value : String
  Placeholder : String
  focus : Bool
deriving DecidableEq, Repr

/-- The `spinner.Model` widget, reduced to its frame counter. -/
structure Spinner where
  frame : Nat
deriving DecidableEq, Repr

/-- Commands (`tea.Cmd`), as data: the deferred operation a command stands for.
A `nil` command is `none : Option Cmd`. -/
inductive Cmd where
  | Quit
  | spinnerTick
  | widget (tag : Nat)
  | generateMigrationPlan (config : MigrationConfig)
  | performMigration (config : MigrationConfig)
  | executeNextStep (config : MigrationConfig) (plan : Option MigrationPlan) (stepIndex : Nat)
  | Batch (first second : Cmd)
deriving DecidableEq, Repr

/-- Messages (`tea.Msg`). A key message is given by its `String()` rendering. -/
inductive Msg where
  | KeyMsg (key : String)
  | TickMsg (id : Nat)
  | migrationPlanMsg (plan : Option MigrationPlan) (err : Option String)
  | stepCompleteMsg (stepNumber : Int) (details : String) (err : Option String)
  | migrationCompleteMsg (err : Option String)
  | other (tag : Nat)
deriving DecidableEq, Repr

/-- The bubbles widgets, which are library code: how the text input and the
spinner react to a message. -/
structure Ext where
  textInputUpdate : TextInput → Msg → TextInput × Option Cmd
  spinnerUpdate : Spinner → Msg → Spinner × Option Cmd

structure model where
  state : state
  spinner : Spinner
  textInput : TextInput
  config : MigrationConfig
  err : Option String
  migrationDone : Bool
  sourceFormats : List String
  targetFormats : List String
  selectedSource : Nat
  selectedTarget : Nat
  selectedAI : Nat
  aiOptions : List String
  migrationPlan : Option MigrationPlan
  executionSteps : List ExecutionStep
  currentStep : Nat
  showingSteps : Bool
  userApproved : Bool
deriving DecidableEq, Repr

/-- The `migration_metadata` object of the enhanced output document. -/
structure MigrationMetadata where
  enhanced_by : String
  migration_time : String
  source_format : String
  target_format : String
  execution_mode : String
deriving DecidableEq, Repr

/-- The `enhancedOutput` map of `performActualMigration`. -/
structure EnhancedOutput where
  migration_plan : MigrationPlan
  converted_data : Option RingCentralPhoneSystem
  migration_metadata : MigrationMetadata
deriving DecidableEq, Repr

/-- Calls to collaborators, as they appear in the call log. -/
inductive Effect where
  | Sleep (seconds : Nat)
  | ReadFile (path : String)
  | WriteFile (path data : String)
  | Convert (input : TwilioPhoneSystem)
deriving DecidableEq, Repr

/-- What the operating system and `encoding/json` answer: `ioutil.ReadFile`,
`ioutil.WriteFile` (its error, if any), `json.Unmarshal` into a
`TwilioPhoneSystem`, `json.MarshalIndent` of the enhanced output, and the
formatted current time. -/
structure World where
  ReadFile : String → Except String String
  WriteFile : String → String → Option String
  Unmarshal : String → Except String TwilioPhoneSystem
  MarshalIndent : EnhancedOutput → Except String String
  Now : String

/-! ## Filename normalization -/

/-- Go `strings.HasSuffix`. -/
def HasSuffix (s suffix : String) : Bool :=
  suffix.data.isSuffixOf s.data

/-- The statement `if !strings.HasSuffix(f, ".json") { f += ".json" }`, which
`Update` applies to the source and to the target filename. -/
def appendJSONExt (f : String) : String :=
  if HasSuffix f ".json" then f else f ++ ".json"

/-! ## Conversion service -/

/-- The inner loop of `convertTwilioToRingCentral`: the enabled capabilities. -/
def enabledFeatures (capabilities : List (String × Bool)) : List String :=
  capabilities.foldl
    (fun features entry => if entry.2 then features ++ [entry.1] else features) []

def convertTwilioToRingCentral (twilioSystem : TwilioPhoneSystem) : RingCentralPhoneSystem :=
  let accounts := twilioSystem.Users.foldl
    (fun acc user => acc ++ [({ ID := user.ID
                                Username := user.Name
                                Contact := user.Email
                                MainNumber := user.PhoneNumber
                                Active := decide (user.Status = "active") } : RingCentralAccount)]) []
  let numbers := twilioSystem.Lines.foldl
    (fun acc line => acc ++ [({ ID := line.SID
                                Number := line.Number
                                Features := enabledFeatures line.Capabilities
                                Region := line.Location } : RingCentralNumber)]) []
  { Accounts := accounts, Numbers := numbers }

/-! ## Step executor -/

/-- The terminal conversion + write path. Returns the error (`none` on success)
and the call log. -/
def performActualMigration (w : World) (config : MigrationConfig) (plan : MigrationPlan) :
    Option String × List Effect :=
  match w.ReadFile config.SourceFile with
  | .error e => (some ("failed to read source file: " ++ e), [.ReadFile config.SourceFile])
  | .ok sourceData =>
    match w.Unmarshal sourceData with
    | .error e => (some ("failed to parse source data: " ++ e), [.ReadFile config.SourceFile])
    | .ok parsed =>
      let orderedUsers := plan.RecommendedOrder.foldl (fun acc item => acc ++ [item.Account]) []
      let twilioSystem : TwilioPhoneSystem := { parsed with Users := orderedUsers }
      let enhancedOutput : EnhancedOutput :=
        { migration_plan := plan
          converted_data := none
          migration_metadata :=
            { enhanced_by := "Engine Room AI"
              migration_time := w.Now
              source_format := config.SourceFormat
              target_format := config.TargetFormat
              execution_mode := "step-by-step" } }
      if config.SourceFormat = "Twilio" ∧ config.TargetFormat = "RingCentral" then
        let rcSystem := convertTwilioToRingCentral twilioSystem
        let enhancedOutput := { enhancedOutput with converted_data := some rcSystem }
        match w.MarshalIndent enhancedOutput with
        | .error e =>
          (some ("failed to marshal output: " ++ e),
            [.ReadFile config.SourceFile, .Convert twilioSystem])
        | .ok targetData =>
          match w.WriteFile config.TargetFile targetData with
          | some e =>
            (some ("failed to write target file: " ++ e),
              [.ReadFile config.SourceFile, .Convert twilioSystem,
               .WriteFile config.TargetFile targetData])
          | none =>
            (none,
              [.ReadFile config.SourceFile, .Convert twilioSystem,
               .WriteFile config.TargetFile targetData])
      else
        (some "Engine Room AI-enhanced migration currently only supports Twilio to RingCentral",
          [.ReadFile config.SourceFile])

/-- The thunk returned by `executeNextStep`, run in world `w`: the message it
delivers and the call log. `none` is a panic (nil plan). -/
def executeNextStep (w : World) (config : MigrationConfig) (plan : Option MigrationPlan)
    (stepIndex : Nat) : Option (Msg × List Effect) :=
  match plan with
  | none => none
  | some plan =>
    if stepIndex ≥ plan.TodoList.length then
      some (.migrationCompleteMsg none, [.Sleep 2])
    else
      match plan.TodoList[stepIndex]? with
      | none => none
      | some step =>
        let canned (details : String) : Option (Msg × List Effect) :=
          some (.stepCompleteMsg ((stepIndex : Int) + 1) details none, [.Sleep 2])
        match stepIndex with
        | 0 => canned "✓ System data backed up successfully"
        | 1 => canned "✓ Data integrity validated - no issues found"
        | 2 => canned "✓ Started migration in priority order"
        | 3 => canned ("✓ Migrated " ++ toString plan.RecommendedOrder.length ++
                  " users according to Engine Room AI's recommendations")
        | 4 => canned "✓ Phone numbers and capabilities migrated"
        | 5 => canned "✓ Post-migration validation completed"
        | _ =>
          if (stepIndex : Int) = (plan.TodoList.length : Int) - 1 then
            let r := performActualMigration w config plan
            match r.1 with
            | none =>
              some (.stepCompleteMsg ((stepIndex : Int) + 1)
                "✓ Migration file generated successfully" none, .Sleep 2 :: r.2)
            | some e =>
              some (.stepCompleteMsg ((stepIndex : Int) + 1) "" (some e), .Sleep 2 :: r.2)
          else
            canned ("✓ " ++ step.Description ++ " completed")

/-! ## Wizard state machine -/

def initialModel : model :=
  { state := .enteringSource
    spinner := { frame := 0 }
    textInput := { value := "", Placeholder := "Enter source JSON filename...", focus := true }
    config := { SourceFile := "", TargetFile := "", SourceFormat := "", TargetFormat := "",
                UseAI := false }
    err := none
    migrationDone := false
    sourceFormats := ["Twilio", "RingCentral"]
    targetFormats := ["Twilio", "RingCentral"]
    selectedSource := 0
    selectedTarget := 0
    selectedAI := 0
    aiOptions := ["Yes - Use Engine Room AI", "No - Standard migration"]
    migrationPlan := none
    executionSteps := []
    currentStep := 0
    showingSteps := false
    userApproved := false }

/-- The steps built by the `make` and the `range` loop of
`initializeExecutionSteps`, before the first one is marked. -/
def pendingSteps (todoList : List TodoItem) : List ExecutionStep :=
  todoList.map fun todo =>
    { StepNumber := todo.Step
      Description := todo.Description
      Status := "pending"
      Details := ""
      Error := none }

def initializeExecutionSteps (m : model) : model :=
  match m.migrationPlan with
  | none => m
  | some plan =>
    if plan.TodoList.length > 0 then
      let steps := pendingSteps plan.TodoList
      let steps :=
        if steps.length > 0 then steps.modify (fun s => { s with Status := "running" }) 0
        else steps
      { m with executionSteps := steps }
    else m

/-- The `tea.KeyMsg` case of `Update`; `k` is `msg.String()`. -/
def updateKey (ext : Ext) (m : model) (k : String) : Option (model × Option Cmd) :=
  match m.state with
  | .enteringSource =>
    if k = "ctrl+c" ∨ k = "q" then some (m, some .Quit)
    else
      let m :=
        if k = "enter" then
          if m.textInput.value ≠ "" then
            { m with
              config := { m.config with SourceFile := appendJSONExt m.textInput.value }
              state := .selectingSourceFormat }
          else m
        else m
      let r := ext.textInputUpdate m.textInput (.KeyMsg k)
      some ({ m with textInput := r.1 }, r.2)
  | .selectingSourceFormat =>
    if k = "ctrl+c" ∨ k = "q" then some (m, some .Quit)
    else if k = "up" ∨ k = "k" then
      some (if m.selectedSource > 0 then { m with selectedSource := m.selectedSource - 1 } else m,
        none)
    else if k = "down" ∨ k = "j" then
      some (if (m.selectedSource : Int) < (m.sourceFormats.length : Int) - 1 then
          { m with selectedSource := m.selectedSource + 1 } else m,
        none)
    else if k = "enter" ∨ k = " " then
      match m.sourceFormats[m.selectedSource]? with
      | none => none
      | some format =>
        some ({ m with
                config := { m.config with SourceFormat := format }
                state := .enteringTarget
                textInput := { value := "", Placeholder := "Enter target filename...",
                               focus := true } },
          none)
    else some (m, none)
  | .enteringTarget =>
    if k = "ctrl+c" ∨ k = "q" then some (m, some .Quit)
    else
      let m :=
        if k = "enter" then
          if m.textInput.value ≠ "" then
            { m with
              config := { m.config with TargetFile := appendJSONExt m.textInput.value }
              state := .selectingTargetFormat }
          else m
        else m
      let r := ext.textInputUpdate m.textInput (.KeyMsg k)
      some ({ m with textInput := r.1 }, r.2)
  | .selectingTargetFormat =>
    if k = "ctrl+c" ∨ k = "q" then some (m, some .Quit)
    else if k = "up" ∨ k = "k" then
      some (if m.selectedTarget > 0 then { m with selectedTarget := m.selectedTarget - 1 } else m,
        none)
    else if k = "down" ∨ k = "j" then
      some (if (m.selectedTarget : Int) < (m.targetFormats.length : Int) - 1 then
          { m with selectedTarget := m.selectedTarget + 1 } else m,
        none)
    else if k = "enter" ∨ k = " " then
      match m.targetFormats[m.selectedTarget]? with
      | none => none
      | some format =>
        some ({ m with
                config := { m.config with TargetFormat := format }
                state := .askingAIPreference },
          none)
    else some (m, none)
  | .askingAIPreference =>
    if k = "ctrl+c" ∨ k = "q" then some (m, some .Quit)
    else if k = "up" ∨ k = "k" then
      some (if m.selectedAI > 0 then { m with selectedAI := m.selectedAI - 1 } else m, none)
    else if k = "down" ∨ k = "j" then
      some (if (m.selectedAI : Int) < (m.aiOptions.length : Int) - 1 then
          { m with selectedAI := m.selectedAI + 1 } else m,
        none)
    else if k = "enter" ∨ k = " " then
      let m := { m with config := { m.config with UseAI := decide (m.selectedAI = 0) } }
      if m.config.UseAI then
        let m := { m with state := .showingPlan }
        some (m, some (.Batch .spinnerTick (.generateMigrationPlan m.config)))
      else
        let m := { m with state := .executingPlan }
        some (m, some (.Batch .spinnerTick (.performMigration m.config)))
    else some (m, none)
  | .showingPlan =>
    if k = "ctrl+c" ∨ k = "q" then some (m, some .Quit)
    else some (m, none)
  | .confirmingPlan =>
    if k = "ctrl+c" ∨ k = "q" then some (m, some .Quit)
    else if k = "y" ∨ k = "Y" ∨ k = "enter" then
      let m := { m with userApproved := true, state := .executingPlan, currentStep := 0 }
      let m := initializeExecutionSteps m
      some (m, some (.Batch .spinnerTick (.executeNextStep m.config m.migrationPlan 0)))
    else if k = "n" ∨ k = "N" then
      some ({ m with state := .completed, err := some "migration cancelled by user" }, none)
    else some (m, none)
  | .executingPlan =>
    if k = "ctrl+c" ∨ k = "q" then some (m, some .Quit)
    else some (m, none)
  | .completed =>
    if k = "ctrl+c" ∨ k = "q" ∨ k = "enter" ∨ k = " " then some (m, some .Quit)
    else some (m, none)

/-- The largest value of a Go `int` (64-bit platform). -/
def maxInt : Nat := 9223372036854775807

/-- The `stepCompleteMsg` case of `Update`. In the success branch the
increment `m.currentStep++` overflows when the cursor is the largest `int`.
Such a cursor is below the length of no slice, so no step has been marked; the
cursor wraps to the most negative `int`, the test
`m.currentStep >= len(m.executionSteps)` fails, the guard
`m.currentStep < len(m.executionSteps)` holds, and the index expression
`m.executionSteps[m.currentStep]` panics: the result is `none`. (A Go slice is
never longer than `maxInt`, so for the sessions of the program the condition
of the panic is `m.currentStep = maxInt`; its second half only says what the
embedding does with lists longer than any slice.) -/
def updateStepComplete (m : model) (details : String) (err : Option String) :
    Option (model × Option Cmd) :=
  match err with
  | some e =>
    let steps :=
      if m.currentStep < m.executionSteps.length then
        m.executionSteps.modify (fun s => { s with Status := "failed", Error := some e })
          m.currentStep
      else m.executionSteps
    some ({ m with executionSteps := steps, err := some e, state := .completed }, none)
  | none =>
    let steps :=
      if m.currentStep < m.executionSteps.length then
        m.executionSteps.modify (fun s => { s with Status := "completed", Details := details })
          m.currentStep
      else m.executionSteps
    if maxInt ≤ m.currentStep ∧ m.executionSteps.length ≤ m.currentStep then none
    else
      let m := { m with executionSteps := steps, currentStep := m.currentStep + 1 }
      if m.currentStep ≥ m.executionSteps.length then
        some ({ m with state := .completed, migrationDone := true }, none)
      else
        let steps :=
          if m.currentStep < m.executionSteps.length then
            m.executionSteps.modify (fun s => { s with Status := "running" }) m.currentStep
          else m.executionSteps
        let m := { m with executionSteps := steps }
        some (m, some (.executeNextStep m.config m.migrationPlan m.currentStep))

def Update (ext : Ext) (m : model) (msg : Msg) : Option (model × Option Cmd) :=
  match msg with
  | .KeyMsg k => updateKey ext m k
  | .TickMsg id =>
    let r := ext.spinnerUpdate m.spinner (.TickMsg id)
    some ({ m with spinner := r.1 }, r.2)
  | .migrationPlanMsg plan err =>
    let m := { m with migrationPlan := plan }
    match err with
    | some e => some ({ m with err := some e, state := .completed }, none)
    | none => some ({ m with state := .confirmingPlan }, none)
  | .stepCompleteMsg _ details err => updateStepComplete m details err
  | .migrationCompleteMsg err =>
    let m := { m with state := .completed, migrationDone := true }
    match err with
    | some e => some ({ m with err := some e }, none)
    | none => some (m, none)
  | .other _ => some (m, none)

/-! ## Plan service -/

/-- Go `strings.Index` for a one-character pattern: the position of its first
occurrence, or -1. Positions count characters; the patterns searched for are
ASCII. -/
def Index (s : String) (c : Char) : Int :=
  if c ∈ s.data then (s.data.indexOf c : Int) else -1

/-- Go `strings.LastIndex` for a one-character pattern: the position of its
last occurrence, or -1. -/
def LastIndex (s : String) (c : Char) : Int :=
  if c ∈ s.data then (s.data.length : Int) - 1 - (s.data.reverse.indexOf c : Int) else -1

/-- The slice expression `s[lo:hi]`; `none` is the panic "slice bounds out of
range". -/
def sliceString (s : String) (lo hi : Int) : Option String :=
  if 0 ≤ lo ∧ lo ≤ hi ∧ hi ≤ (s.data.length : Int) then
    some ⟨(s.data.drop lo.toNat).take (hi.toNat - lo.toNat)⟩
  else none

/-- The extraction of the JSON document from the reply, in
`PlanMigrationOrder`: `some (.error _)` is the returned error, `none` a panic. -/
def extractJSON (response : String) : Option (Except String String) :=
  let jsonStart := Index response (Char.ofNat 123)
  let jsonEnd := LastIndex response (Char.ofNat 125) + 1
  if jsonStart = -1 ∨ jsonEnd = 0 then
    some (.error "no valid JSON found in Engine Room AI response")
  else
    match sliceString response jsonStart jsonEnd with
    | none => none
    | some jsonStr => some (.ok jsonStr)

/-- What the environment of the plan service answers: `os.Getenv`,
`json.MarshalIndent` of the users, the result of `callEngineRoom` (the HTTP
exchange) for an API key and the users document embedded in the prompt, and
`json.Unmarshal` into a `MigrationPlan`. -/
structure PlanService where
  Getenv : String → String
  MarshalUsers : List TwilioUser → Except String String
  Reply : String → String → Except String String
  UnmarshalPlan : String → Except String MigrationPlan

/-- The method `PlanMigrationOrder` of the migrator built with `apiKey`:
`some (.ok plan)` is `(&plan, nil)`, `some (.error e)` is `(nil, e)`, `none` a
panic. -/
def PlanMigrationOrder (ps : PlanService) (apiKey : String) (users : List TwilioUser) :
    Option (Except String MigrationPlan) :=
  match ps.MarshalUsers users with
  | .error e => some (.error e)
  | .ok usersJSON =>
    match ps.Reply apiKey usersJSON with
    | .error e => some (.error ("Engine Room AI API error: " ++ e))
    | .ok response =>
      match extractJSON response with
      | none => none
      | some (.error e) => some (.error e)
      | some (.ok jsonStr) =>
        match ps.UnmarshalPlan jsonStr with
        | .error e =>
          some (.error ("failed to parse Engine Room AI response: " ++ e ++ "\nResponse: " ++
            jsonStr))
        | .ok plan => some (.ok plan)

/-- The thunk returned by `generateMigrationPlan`: the message it delivers;
`none` is a panic. -/
def generateMigrationPlan (w : World) (ps : PlanService) (config : MigrationConfig) :
    Option Msg :=
  let apiKey := ps.Getenv "ANTHROPIC_API_KEY"
  if apiKey = "" then
    some (.migrationPlanMsg none (some "ANTHROPIC_API_KEY environment variable not set"))
  else
    match w.ReadFile config.SourceFile with
    | .error e => some (.migrationPlanMsg none (some ("failed to read source file: " ++ e)))
    | .ok sourceData =>
      match w.Unmarshal sourceData with
      | .error e => some (.migrationPlanMsg none (some ("failed to parse source data: " ++ e)))
      | .ok twilioSystem =>
        match PlanMigrationOrder ps apiKey twilioSystem.Users with
        | none => none
        | some (.error e) =>
          some (.migrationPlanMsg none (some ("Engine Room AI analysis failed: " ++ e)))
        | some (.ok plan) => some (.migrationPlanMsg (some plan) none)

/-! ## Conversion back to schema A -/

/-- The assignment `capabilities[key] = value` on a map given by its entries. -/
def setCapability (capabilities : List (String × Bool)) (key : String) (value : Bool) :
    List (String × Bool) :=
  if capabilities.any (fun entry => decide (entry.1 = key)) then
    capabilities.map (fun entry => if entry.1 = key then (key, value) else entry)
  else capabilities ++ [(key, value)]

/-- The two loops of `ringCentralToTwilio`, between the parsing of its input
and the marshalling of its output. The entries of each capability map are
listed in insertion order. -/
def convertRingCentralToTwilio (rcSystem : RingCentralPhoneSystem) : TwilioPhoneSystem :=
  let users := rcSystem.Accounts.foldl
    (fun acc account =>
      let status := if account.Active then "active" else "inactive"
      acc ++ [({ ID := account.ID
                 Name := account.Username
                 Email := account.Contact
                 PhoneNumber := account.MainNumber
                 Status := status } : TwilioUser)]) []
  let lines := rcSystem.Numbers.foldl
    (fun acc number =>
      let capabilities := number.Features.foldl (fun caps feature => setCapability caps feature true) []
      acc ++ [({ SID := number.ID
                 Number := number.Number
                 Capabilities := capabilities
                 Location := number.Region } : TwilioLine)]) []
  { Users := users, Lines := lines }

/-- What `encoding/json` answers on the direct path: `json.Unmarshal` into a
`RingCentralPhoneSystem` and `json.MarshalIndent` of a `TwilioPhoneSystem`. -/
structure Codec where
  UnmarshalRingCentral : String → Except String RingCentralPhoneSystem
  MarshalTwilio : TwilioPhoneSystem → Except String String

def ringCentralToTwilio (j : Codec) (data : String) : Except String String :=
  match j.UnmarshalRingCentral data with
  | .error e => .error e
  | .ok rcSystem => j.MarshalTwilio (convertRingCentralToTwilio rcSystem)

/-! ## Vocabulary of the statements -/

/-- The key inputs that the transition table of the wizard lists as leaving a
state: submit in the two filename states, select in the three menus, approve
and decline in plan confirmation. -/
def transitionKey (s : state) (k : String) : Bool :=
  match s with
  | .enteringSource => k = "enter"
  | .selectingSourceFormat => k = "enter" ∨ k = " "
  | .enteringTarget => k = "enter"
  | .selectingTargetFormat => k = "enter" ∨ k = " "
  | .askingAIPreference => k = "enter" ∨ k = " "
  | .showingPlan => false
  | .confirmingPlan => k = "y" ∨ k = "Y" ∨ k = "enter" ∨ k = "n" ∨ k = "N"
  | .executingPlan => false
  | .completed => false

/-- Session states reachable from plan approval by step-completion events
delivered while the state is Executing. Approval happens in ConfirmingPlan,
where no execution step exists yet. -/
inductive ExecReachable (ext : Ext) : model → Prop where
  | approve (m0 m : model) (k : String) (c : Option Cmd) :
      m0.state = .confirmingPlan → m0.executionSteps = [] →
      (k = "y" ∨ k = "Y" ∨ k = "enter") →
      Update ext m0 (.KeyMsg k) = some (m, c) → ExecReachable ext m
  | step (m m' : model) (n : Int) (details : String) (err : Option String) (c : Option Cmd) :
      ExecReachable ext m → m.state = .executingPlan →
      Update ext m (.stepCompleteMsg n details err) = some (m', c) → ExecReachable ext m'

/-- The statuses that a cursor `c` prescribes for a list of steps: "completed"
below the cursor, "running" at the cursor, "pending" above it; and the cursor
is on a step whenever there is one. -/
def orderedAt (steps : List ExecutionStep) (c : Nat) : Prop :=
  (∀ i s, steps[i]? = some s →
    (i < c → s.Status = "completed") ∧
    (i = c → s.Status = "running") ∧
    (c < i → s.Status = "pending")) ∧
  (steps ≠ [] → c < steps.length)

/-- The reordering as the specification words it: the accounts of the plan
entries, in plan order, without those that match no user of the source file
(by id). -/
def matchedOrder (plan : MigrationPlan) (source : List TwilioUser) : List TwilioUser :=
  (plan.RecommendedOrder.map fun item => item.Account).filter
    fun account => source.any fun user => decide (user.ID = account.ID)

/-- The position of a state in the declaration order (its `iota` value). -/
def state.rank : state → Nat
  | .enteringSource => 0
  | .selectingSourceFormat => 1
  | .enteringTarget => 2
  | .selectingTargetFormat => 3
  | .askingAIPreference => 4
  | .showingPlan => 5
  | .confirmingPlan => 6
  | .executingPlan => 7
  | .completed => 8

/-- Session states reachable from `initialModel` by any sequence of messages
that `Update` handles without a fault. -/
inductive Reachable (ext : Ext) : model → Prop where
  | init : Reachable ext initialModel
  | step (m m' : model) (msg : Msg) (c : Option Cmd) :
      Reachable ext m → Update ext m msg = some (m', c) → Reachable ext m'

/-- The three menus are those of `initialModel` and each selection index is
the index of one of their options. -/
def menusIntact (m : model) : Prop :=
  m.sourceFormats = initialModel.sourceFormats ∧
  m.targetFormats = initialModel.targetFormats ∧
  m.aiOptions = initialModel.aiOptions ∧
  m.selectedSource < m.sourceFormats.length ∧
  m.selectedTarget < m.targetFormats.length ∧
  m.selectedAI < m.aiOptions.length

/-- The asynchronous operations (generate-plan, run-direct-migration,
execute-step) that a command issues. -/
def Cmd.operations : Cmd → List Cmd
  | .Batch first second => first.operations ++ second.operations
  | .generateMigrationPlan config => [.generateMigrationPlan config]
  | .performMigration config => [.performMigration config]
  | .executeNextStep config plan stepIndex => [.executeNextStep config plan stepIndex]
  | _ => []

/-- The operations issued by the command that `Update` returns. -/
def issued : Option Cmd → List Cmd
  | none => []
  | some c => c.operations

/-- The widgets return commands of their own: none of the three operations. -/
def widgetsOnly (ext : Ext) : Prop :=
  (∀ t msg, issued (ext.textInputUpdate t msg).2 = []) ∧
  (∀ s msg, issued (ext.spinnerUpdate s msg).2 = [])

/-- The completion events. -/
def isCompletion : Msg → Bool
  | .migrationPlanMsg _ _ => true
  | .stepCompleteMsg _ _ _ => true
  | .migrationCompleteMsg _ => true
  | _ => false

/-- Whether a message is of a type that the thunk of an operation returns:
`generateMigrationPlan` returns a `migrationPlanMsg`, `performMigration` a
`migrationCompleteMsg`, `executeNextStep` a `migrationCompleteMsg` or a
`stepCompleteMsg`. -/
def answers : Cmd → Msg → Bool
  | .generateMigrationPlan _, .migrationPlanMsg _ _ => true
  | .performMigration _, .migrationCompleteMsg _ => true
  | .executeNextStep _ _ _, .migrationCompleteMsg _ => true
  | .executeNextStep _ _ _, .stepCompleteMsg _ _ _ => true
  | _, _ => false

/-- A run of the wizard: the session and the operations issued and not yet
answered. -/
structure Run where
  session : model
  outstanding : List Cmd
deriving DecidableEq, Repr

/-- The outstanding operations after the delivery of a message: a completion
event answers, and removes, an outstanding operation, and cannot be delivered
(`none`) when there is none that it answers; other messages remove nothing. -/
def consumed (outstanding : List Cmd) (msg : Msg) : Option (List Cmd) :=
  if isCompletion msg then
    match outstanding.find? (fun op => answers op msg) with
    | some op => some (outstanding.erase op)
    | none => none
  else some outstanding

/-- One turn of the event loop: the message is delivered, `Update` consumes it,
and the operations of the returned command become outstanding. -/
def runStep (ext : Ext) (r : Run) (msg : Msg) : Option Run :=
  match consumed r.outstanding msg with
  | none => none
  | some rest =>
    match Update ext r.session msg with
    | none => none
    | some (m, c) => some { session := m, outstanding := rest ++ issued c }

/-- The run that a sequence of messages drives from `r`. -/
def runFrom (ext : Ext) (r : Run) : List Msg → Option Run
  | [] => some r
  | msg :: rest =>
    match runStep ext r msg with
    | none => none
    | some r' => runFrom ext r' rest

/-- The shape of a run between two turns of the event loop: either no
operation is outstanding, or exactly one is, and then the session waits for it:
generate-plan in GeneratingPlan, run-direct-migration in Executing, execute-step
for the index of the step cursor in Executing. -/
def awaitsOne (r : Run) : Prop :=
  r.outstanding = [] ∨
  (∃ config, r.outstanding = [.generateMigrationPlan config] ∧
    r.session.state = .showingPlan) ∨
  (∃ config, r.outstanding = [.performMigration config] ∧
    r.session.state = .executingPlan) ∨
  (∃ config plan, r.outstanding = [.executeNextStep config plan r.session.currentStep] ∧
    r.session.state = .executingPlan)

/-! ## Sample data -/

/-- Widgets that ignore every message. -/
def idleExt : Ext :=
  { textInputUpdate := fun t _ => (t, none)
    spinnerUpdate := fun s _ => (s, none) }

def sampleUser (id : String) : TwilioUser :=
  { ID := id, Name := "Jane", Email := "jane@x.com", PhoneNumber := "+15550001",
    Status := "active" }

def sampleEntry (id : String) : AccountWithPriority :=
  { Account := sampleUser id, Priority := 1, Reason := "first", Risk := "low" }

def sampleTodo (n : Nat) : TodoItem :=
  { Step := (n : Int) + 1, Description := "task", Action := "act", Risk := "low",
    Completed := false }

/-- A plan with `n` to-do items, numbered from 1, and the given entries. -/
def samplePlan (n : Nat) (order : List AccountWithPriority) : MigrationPlan :=
  { RecommendedOrder := order, Reasoning := "", RiskAssessment := "",
    TodoList := (List.range n).map sampleTodo, EstimatedTime := "" }

def sampleConfig : MigrationConfig :=
  { SourceFile := "in.json", TargetFile := "out.json", SourceFormat := "Twilio",
    TargetFormat := "RingCentral", UseAI := true }

/-- A world whose source file holds the single user `AC1` and no line, and in
which marshalling lists the ids of the converted accounts. -/
def sampleWorld : World :=
  { ReadFile := fun p => if p = "in.json" then .ok "source" else .error "no such file"
    WriteFile := fun _ _ => none
    Unmarshal := fun _ => .ok { Users := [sampleUser "AC1"], Lines := [] }
    MarshalIndent := fun o =>
      .ok (String.intercalate "," (match o.converted_data with
        | some rc => rc.Accounts.map (fun a => a.ID)
        | none => []))
    Now := "2026-01-01 00:00:00" }

/-- A session waiting for plan confirmation, with the given plan. -/
def sampleConfirming (plan : MigrationPlan) : model :=
  { initialModel with
    state := .confirmingPlan, config := sampleConfig, migrationPlan := some plan }

/-- The session right after the approval of a plan with three to-do items. -/
def sampleApproved : model :=
  initializeExecutionSteps
    { sampleConfirming (samplePlan 3 []) with
      userApproved := true, state := .executingPlan, currentStep := 0 }

/-- The session after the first of the three steps has completed. -/
def sampleAdvanced : model :=
  match updateStepComplete sampleApproved "ok" none with
  | some r => r.1
  | none => sampleApproved

/-- A line with one enabled and one disabled capability. -/
def sampleLine : TwilioLine :=
  { SID := "PN1", Number := "+15550002", Capabilities := [("voice", true), ("sms", false)],
    Location := "LOC1" }

/-- A plan service with an API key whose exchange answers `reply`, and whose
parser accepts every non-empty document. -/
def samplePlanService (reply : String) : PlanService :=
  { Getenv := fun _ => "key"
    MarshalUsers := fun _ => .ok "[]"
    Reply := fun _ _ => .ok reply
    UnmarshalPlan := fun doc =>
      if doc = "" then .error "unexpected end of JSON input"
      else .ok (samplePlan 7 [sampleEntry "AC1"]) }

/-- Widgets whose text input appends a one-character key to its buffer. -/
def typingExt : Ext :=
  { textInputUpdate := fun t msg =>
      match msg with
      | .KeyMsg k => (if k.length = 1 then { t with value := t.value ++ k } else t, none)
      | _ => (t, none)
    spinnerUpdate := fun s _ => (s, none) }

/-- The session after the keys "a", "enter", "down": the source file is
"a.json" and the cursor of the source-format menu is on its second option. -/
def sampleSelecting : model :=
  { initialModel with
    state := .selectingSourceFormat
    textInput := { initialModel.textInput with value := "a" }
    config := { initialModel.config with SourceFile := "a.json" }
    selectedSource := 1 }

/-- A session from the first key to the completion of the first step of a
plan with three to-do items. -/
def sampleRunMessages : List Msg :=
  [.KeyMsg "a", .KeyMsg "enter", .KeyMsg "enter", .KeyMsg "b", .KeyMsg "enter", .KeyMsg "down",
   .KeyMsg "enter", .KeyMsg "enter", .TickMsg 0, .migrationPlanMsg (some (samplePlan 3 [])) none,
   .KeyMsg "y", .stepCompleteMsg 1 "ok" none]

/-- The run that `sampleRunMessages` drives from `initialModel`. -/
def sampleRun : Run :=
  (runFrom typingExt { session := initialModel, outstanding := [] } sampleRunMessages).getD
    { session := initialModel, outstanding := [] }

/-! ## Filename normalization is idempotent -/

theorem hasSuffix_appendJSONExt (s : String) : HasSuffix (appendJSONExt s) ".json" = true := by
  unfold appendJSONExt
  by_cases h : HasSuffix s ".json" = true
  · simp [h]
  · simp only [h]
    simp [HasSuffix, String.data_append]

/-- C10: appending the default extension is idempotent, and a name that
already ends with ".json" is returned as it is. -/
theorem appendJSONExt_idempotent (s : String) :
    appendJSONExt (appendJSONExt s) = appendJSONExt s ∧
      (HasSuffix s ".json" = true → appendJSONExt s = s) := by
  constructor
  · have h := hasSuffix_appendJSONExt s
    generalize appendJSONExt s = t at h ⊢
    simp [appendJSONExt, h]
  · intro h
    simp [appendJSONExt, h]

theorem appendJSONExt_idempotent_witness :
    appendJSONExt (appendJSONExt "users") = appendJSONExt "users" ∧
      HasSuffix "users.json" ".json" = true ∧ appendJSONExt "users.json" = "users.json" :=
  ⟨(appendJSONExt_idempotent "users").1, by decide,
    (appendJSONExt_idempotent "users.json").2 (by decide)⟩

/-! ## Step completion -/

/-- C4: a step-completion event carrying an error, received with the cursor on
an existing step, marks that step "failed" with the error captured, stores the
error as the terminal error, moves to Completed, issues no operation, and
leaves the cursor and every other step as they were. -/
theorem step_failure_halts (ext : Ext) (m : model) (n : Int) (details e : String)
    (hc : m.currentStep < m.executionSteps.length) :
    ∃ m', Update ext m (.stepCompleteMsg n details (some e)) = some (m', none) ∧
      m'.state = .completed ∧ m'.err = some e ∧ m'.currentStep = m.currentStep ∧
      m'.executionSteps.length = m.executionSteps.length ∧
      m'.executionSteps[m.currentStep]? =
        (m.executionSteps[m.currentStep]?).map
          (fun s => { s with Status := "failed", Error := some e }) ∧
      (∀ i, i ≠ m.currentStep → m'.executionSteps[i]? = m.executionSteps[i]?) := by
  refine ⟨_, rfl, rfl, rfl, rfl, ?_, ?_, ?_⟩
  · simp [hc]
  · simp [hc, List.getElem?_modify]
  · intro i hi
    simp [hc, List.getElem?_modify, Ne.symm hi]

theorem step_failure_halts_witness :
    ∃ m', Update idleExt
        { sampleConfirming (samplePlan 3 []) with
          state := .executingPlan, executionSteps := pendingSteps (samplePlan 3 []).TodoList,
          currentStep := 1 }
        (.stepCompleteMsg 2 "" (some "disk full")) = some (m', none) ∧
      m'.state = .completed ∧ m'.err = some "disk full" ∧ m'.currentStep = 1 ∧
      m'.executionSteps.length = 3 ∧
      m'.executionSteps[1]? =
        ((pendingSteps (samplePlan 3 []).TodoList)[1]?).map
          (fun s => { s with Status := "failed", Error := some "disk full" }) ∧
      (∀ i, i ≠ 1 → m'.executionSteps[i]? = (pendingSteps (samplePlan 3 []).TodoList)[i]?) :=
  step_failure_halts idleExt
    { sampleConfirming (samplePlan 3 []) with
      state := .executingPlan, executionSteps := pendingSteps (samplePlan 3 []).TodoList,
      currentStep := 1 }
    2 "" "disk full" (by decide)

theorem updateStepComplete_mid (m : model) (details : String)
    (h : m.currentStep + 1 < m.executionSteps.length) :
    updateStepComplete m details none =
      some ({ m with
              executionSteps :=
                (m.executionSteps.modify
                  (fun s => { s with Status := "completed", Details := details })
                  m.currentStep).modify (fun s => { s with Status := "running" })
                  (m.currentStep + 1)
              currentStep := m.currentStep + 1 },
        some (.executeNextStep m.config m.migrationPlan (m.currentStep + 1))) := by
  have hc : m.currentStep < m.executionSteps.length := by omega
  have hge : ¬ (m.currentStep + 1 ≥ m.executionSteps.length) := by omega
  have hov : ¬ (maxInt ≤ m.currentStep ∧ m.executionSteps.length ≤ m.currentStep) := by omega
  simp only [updateStepComplete, hc, if_true, List.length_modify, hge, if_false, h, hov]

theorem updateStepComplete_last (m : model) (details : String)
    (hc : m.currentStep < m.executionSteps.length)
    (h : m.executionSteps.length ≤ m.currentStep + 1) :
    updateStepComplete m details none =
      some ({ m with
              executionSteps :=
                m.executionSteps.modify
                  (fun s => { s with Status := "completed", Details := details }) m.currentStep
              currentStep := m.currentStep + 1
              state := .completed
              migrationDone := true },
        none) := by
  have hge : m.currentStep + 1 ≥ m.executionSteps.length := h
  have hov : ¬ (maxInt ≤ m.currentStep ∧ m.executionSteps.length ≤ m.currentStep) := by omega
  simp only [updateStepComplete, hc, if_true, List.length_modify, hge, hov, if_false]

/-- C5: a step-completion event without error, received with the cursor `c` on
an existing step, marks step `c` "completed" with the event's detail and moves
the cursor to `c+1`. If `c+1` is the step count, the state becomes Completed,
the terminal error is left as it was and no operation is issued. Otherwise the
state tag is unchanged, step `c+1` becomes "running" and exactly the
execute-step operation for index `c+1` is issued. All other steps are
unchanged. -/
theorem step_success_advances (ext : Ext) (m : model) (n : Int) (details : String)
    (hc : m.currentStep < m.executionSteps.length) :
    ∃ m' cmd, Update ext m (.stepCompleteMsg n details none) = some (m', cmd) ∧
      m'.currentStep = m.currentStep + 1 ∧
      m'.executionSteps.length = m.executionSteps.length ∧
      m'.executionSteps[m.currentStep]? =
        (m.executionSteps[m.currentStep]?).map
          (fun s => { s with Status := "completed", Details := details }) ∧
      m'.err = m.err ∧ m'.config = m.config ∧ m'.migrationPlan = m.migrationPlan ∧
      (m.currentStep + 1 = m.executionSteps.length →
        m'.state = .completed ∧ cmd = none ∧ m'.migrationDone = true ∧
        ∀ i, i ≠ m.currentStep → m'.executionSteps[i]? = m.executionSteps[i]?) ∧
      (m.currentStep + 1 < m.executionSteps.length →
        m'.state = m.state ∧
        cmd = some (.executeNextStep m.config m.migrationPlan (m.currentStep + 1)) ∧
        m'.executionSteps[m.currentStep + 1]? =
          (m.executionSteps[m.currentStep + 1]?).map (fun s => { s with Status := "running" }) ∧
        ∀ i, i ≠ m.currentStep → i ≠ m.currentStep + 1 →
          m'.executionSteps[i]? = m.executionSteps[i]?) := by
  by_cases hlast : m.currentStep + 1 < m.executionSteps.length
  · refine ⟨_, _, updateStepComplete_mid m details hlast, rfl, by simp, ?_,
      rfl, rfl, rfl, fun h => absurd h (by omega), fun _ => ⟨rfl, rfl, ?_, ?_⟩⟩
    · simp [List.getElem?_modify]
    · simp [List.getElem?_modify]
    · intro i h1 h2
      simp [List.getElem?_modify, Ne.symm h1, Ne.symm h2]
  · refine ⟨_, _, updateStepComplete_last m details hc (by omega), rfl, by simp,
      ?_, rfl, rfl, rfl, fun _ => ⟨rfl, rfl, rfl, ?_⟩, fun h => absurd h hlast⟩
    · simp [List.getElem?_modify]
    · intro i h1
      simp [List.getElem?_modify, Ne.symm h1]

theorem step_success_advances_witness :
    ∃ m' cmd, Update idleExt
        { sampleConfirming (samplePlan 3 []) with
          state := .executingPlan, executionSteps := pendingSteps (samplePlan 3 []).TodoList,
          currentStep := 1 }
        (.stepCompleteMsg 2 "done" none) = some (m', cmd) ∧
      m'.currentStep = 1 + 1 ∧
      m'.executionSteps.length = 3 ∧
      m'.executionSteps[1]? =
        ((pendingSteps (samplePlan 3 []).TodoList)[1]?).map
          (fun s => { s with Status := "completed", Details := "done" }) ∧
      m'.err = none ∧ m'.config = sampleConfig ∧ m'.migrationPlan = some (samplePlan 3 []) ∧
      (1 + 1 = 3 →
        m'.state = .completed ∧ cmd = none ∧ m'.migrationDone = true ∧
        ∀ i, i ≠ 1 → m'.executionSteps[i]? = (pendingSteps (samplePlan 3 []).TodoList)[i]?) ∧
      (1 + 1 < 3 →
        m'.state = .executingPlan ∧
        cmd = some (.executeNextStep sampleConfig (some (samplePlan 3 [])) (1 + 1)) ∧
        m'.executionSteps[1 + 1]? =
          ((pendingSteps (samplePlan 3 []).TodoList)[1 + 1]?).map
            (fun s => { s with Status := "running" }) ∧
        ∀ i, i ≠ 1 → i ≠ 1 + 1 →
          m'.executionSteps[i]? = (pendingSteps (samplePlan 3 []).TodoList)[i]?) :=
  step_success_advances idleExt
    { sampleConfirming (samplePlan 3 []) with
      state := .executingPlan, executionSteps := pendingSteps (samplePlan 3 []).TodoList,
      currentStep := 1 }
    2 "done" (by decide)

/-! ## Menus -/

/-- C9: in each of the three menus, "up" (or "k") moves the cursor down by one
and stays at 0 when it is at 0, "down" (or "j") moves it up by one and stays
where it is when it is at the last index; nothing else in the session changes
(in particular the state tag), and no operation is issued. -/
theorem menu_cursor_clamped (ext : Ext) (m : model) (k : String) :
    (m.state = .selectingSourceFormat →
      (k = "up" ∨ k = "k" →
        Update ext m (.KeyMsg k) =
          some ({ m with selectedSource :=
                    if m.selectedSource = 0 then 0 else m.selectedSource - 1 }, none)) ∧
      (k = "down" ∨ k = "j" →
        Update ext m (.KeyMsg k) =
          some ({ m with selectedSource :=
                    if m.selectedSource + 1 < m.sourceFormats.length
                    then m.selectedSource + 1 else m.selectedSource }, none))) ∧
    (m.state = .selectingTargetFormat →
      (k = "up" ∨ k = "k" →
        Update ext m (.KeyMsg k) =
          some ({ m with selectedTarget :=
                    if m.selectedTarget = 0 then 0 else m.selectedTarget - 1 }, none)) ∧
      (k = "down" ∨ k = "j" →
        Update ext m (.KeyMsg k) =
          some ({ m with selectedTarget :=
                    if m.selectedTarget + 1 < m.targetFormats.length
                    then m.selectedTarget + 1 else m.selectedTarget }, none))) ∧
    (m.state = .askingAIPreference →
      (k = "up" ∨ k = "k" →
        Update ext m (.KeyMsg k) =
          some ({ m with selectedAI :=
                    if m.selectedAI = 0 then 0 else m.selectedAI - 1 }, none)) ∧
      (k = "down" ∨ k = "j" →
        Update ext m (.KeyMsg k) =
          some ({ m with selectedAI :=
                    if m.selectedAI + 1 < m.aiOptions.length
                    then m.selectedAI + 1 else m.selectedAI }, none))) := by
  refine ⟨fun hs => ⟨fun hk => ?_, fun hk => ?_⟩, fun hs => ⟨fun hk => ?_, fun hk => ?_⟩,
    fun hs => ⟨fun hk => ?_, fun hk => ?_⟩⟩
  all_goals
    rcases hk with rfl | rfl
  all_goals
    simp only [Update, updateKey, hs]
    simp
    split_ifs <;> first | rfl | omega | (cases m; simp_all; try omega)

theorem menu_cursor_clamped_witness :
    Update idleExt { initialModel with state := .selectingSourceFormat, selectedSource := 1 }
        (.KeyMsg "down") =
      some ({ initialModel with state := .selectingSourceFormat, selectedSource := 1 }, none) ∧
    Update idleExt { initialModel with state := .askingAIPreference } (.KeyMsg "up") =
      some ({ initialModel with state := .askingAIPreference }, none) ∧
    Update idleExt { initialModel with state := .selectingTargetFormat } (.KeyMsg "j") =
      some ({ initialModel with state := .selectingTargetFormat, selectedTarget := 1 }, none) :=
  ⟨((menu_cursor_clamped idleExt
      { initialModel with state := .selectingSourceFormat, selectedSource := 1 } "down").1
      rfl).2 (Or.inl rfl),
   ((menu_cursor_clamped idleExt
      { initialModel with state := .askingAIPreference } "up").2.2 rfl).1 (Or.inl rfl),
   ((menu_cursor_clamped idleExt
      { initialModel with state := .selectingTargetFormat } "j").2.1 rfl).2 (Or.inr rfl)⟩

/-! ## The Completed state -/

/-- C7 (the code at the failing input): in state Completed the key "a" does not
end the process: `Update` returns the session unchanged with no command, while
the screen reads "Press any key to exit". -/
theorem completed_ignores_other_key (ext : Ext) (m : model) :
    Update ext { m with state := .completed } (.KeyMsg "a") =
      some ({ m with state := .completed }, none) := by
  simp [Update, updateKey]

/-- In state Completed exactly the keys "ctrl+c", "q", "enter" and " " return
the quit command. -/
theorem completed_quit_keys (ext : Ext) (m : model) (k : String) (hs : m.state = .completed) :
    (∃ m', Update ext m (.KeyMsg k) = some (m', some .Quit)) ↔
      (k = "ctrl+c" ∨ k = "q" ∨ k = "enter" ∨ k = " ") := by
  by_cases hk : k = "ctrl+c" ∨ k = "q" ∨ k = "enter" ∨ k = " "
  · simp [Update, updateKey, hs, hk]
  · simp [Update, updateKey, hs, hk]

/-! ## Plan approval -/

theorem getElem?_pendingSteps (todoList : List TodoItem) (i : Nat) :
    (pendingSteps todoList)[i]? =
      (todoList[i]?).map fun todo =>
        { StepNumber := todo.Step, Description := todo.Description, Status := "pending",
          Details := "", Error := none } := by
  simp [pendingSteps]

theorem initializeExecutionSteps_eq (m : model) :
    initializeExecutionSteps m =
      { m with executionSteps := (initializeExecutionSteps m).executionSteps } := by
  unfold initializeExecutionSteps
  split
  · rfl
  · split <;> rfl

theorem steps_after_init (m : model) (plan : MigrationPlan)
    (hp : m.migrationPlan = some plan) (hne : plan.TodoList ≠ []) :
    (initializeExecutionSteps m).executionSteps =
      (pendingSteps plan.TodoList).modify (fun s => { s with Status := "running" }) 0 := by
  have hlen : plan.TodoList.length > 0 := List.length_pos.mpr hne
  have hlen2 : (pendingSteps plan.TodoList).length > 0 := by simpa [pendingSteps] using hlen
  simp only [initializeExecutionSteps, hp, hlen, hlen2, if_true]

theorem steps_after_init_nil (m : model) (plan : MigrationPlan)
    (hp : m.migrationPlan = some plan) (hnil : plan.TodoList = []) :
    (initializeExecutionSteps m).executionSteps = m.executionSteps := by
  simp [initializeExecutionSteps, hp, hnil]

/-- C2: approving a plan with N to-do items (in a session that holds no
execution step yet, or for any session when N > 0) creates exactly N execution
steps; the i-th carries the step number and description of the i-th to-do item,
an empty detail and no error, with status "running" for i = 0 and "pending"
for every other i. The session moves to Executing with the cursor on 0 and the
execute-step operation for index 0 is issued. -/
theorem approve_initializes_steps (ext : Ext) (m : model) (plan : MigrationPlan) (k : String)
    (hs : m.state = .confirmingPlan) (hp : m.migrationPlan = some plan)
    (he : m.executionSteps = [] ∨ plan.TodoList ≠ [])
    (hk : k = "y" ∨ k = "Y" ∨ k = "enter") :
    ∃ m', Update ext m (.KeyMsg k) =
        some (m', some (.Batch .spinnerTick (.executeNextStep m.config (some plan) 0))) ∧
      m'.state = .executingPlan ∧ m'.currentStep = 0 ∧
      m'.executionSteps.length = plan.TodoList.length ∧
      ∀ i todo, plan.TodoList[i]? = some todo →
        m'.executionSteps[i]? =
          some ({ StepNumber := todo.Step, Description := todo.Description,
                  Status := if i = 0 then "running" else "pending",
                  Details := "", Error := none } : ExecutionStep) := by
  have hq : ¬ (k = "ctrl+c" ∨ k = "q") := by
    rcases hk with rfl | rfl | rfl <;> decide
  have hupd : Update ext m (.KeyMsg k) =
      some (initializeExecutionSteps
              { m with userApproved := true, state := .executingPlan, currentStep := 0 },
            some (.Batch .spinnerTick (.executeNextStep m.config (some plan) 0))) := by
    simp only [Update, updateKey, hs, hq, hk, if_true, if_false]
    rw [initializeExecutionSteps_eq]
    simp [hp]
  refine ⟨_, hupd, ?_, ?_, ?_, ?_⟩
  · rw [initializeExecutionSteps_eq]
  · rw [initializeExecutionSteps_eq]
  · by_cases hnil : plan.TodoList = []
    · rw [steps_after_init_nil
        { m with userApproved := true, state := .executingPlan, currentStep := 0 } plan hp hnil]
      simp [he.resolve_right (not_not.mpr hnil), hnil]
    · rw [steps_after_init
        { m with userApproved := true, state := .executingPlan, currentStep := 0 } plan hp hnil]
      simp [pendingSteps]
  · intro i todo hi
    have hnil : plan.TodoList ≠ [] := by
      intro h
      simp [h] at hi
    rw [steps_after_init
      { m with userApproved := true, state := .executingPlan, currentStep := 0 } plan hp hnil,
      List.getElem?_modify, getElem?_pendingSteps, hi]
    by_cases h0 : i = 0
    · simp [h0]
    · simp [h0, Ne.symm h0]

theorem approve_initializes_steps_witness :
    ∃ m', Update idleExt (sampleConfirming (samplePlan 3 [])) (.KeyMsg "y") =
        some (m', some (.Batch .spinnerTick
          (.executeNextStep sampleConfig (some (samplePlan 3 [])) 0))) ∧
      m'.state = .executingPlan ∧ m'.currentStep = 0 ∧
      m'.executionSteps.length = 3 ∧
      ∀ i todo, (samplePlan 3 []).TodoList[i]? = some todo →
        m'.executionSteps[i]? =
          some ({ StepNumber := todo.Step, Description := todo.Description,
                  Status := if i = 0 then "running" else "pending",
                  Details := "", Error := none } : ExecutionStep) :=
  approve_initializes_steps idleExt (sampleConfirming (samplePlan 3 [])) (samplePlan 3 []) "y"
    rfl rfl (Or.inl rfl) (Or.inl rfl)

/-! ## Step executor -/

/-- C1 (the code at the failing input): for a plan with five to-do items the
step executor, invoked with the terminal index 4, returns the canned detail of
`case 4` with no error after the sleep alone: the call log holds no file read,
no conversion and no file write, so `performActualMigration` is not invoked. -/
theorem executeNextStep_terminal_of_five (w : World) (config : MigrationConfig)
    (order : List AccountWithPriority) :
    executeNextStep w config (some (samplePlan 5 order)) 4 =
      some (.stepCompleteMsg 5 "✓ Phone numbers and capabilities migrated" none, [.Sleep 2]) := by
  rfl

/-- Below the terminal index the step executor returns a detail string with no
error, and its call log holds the sleep alone. -/
theorem executeNextStep_before_terminal (w : World) (config : MigrationConfig)
    (plan : MigrationPlan) (i : Nat) (hi : i + 1 < plan.TodoList.length) :
    ∃ details, executeNextStep w config (some plan) i =
      some (.stepCompleteMsg ((i : Int) + 1) details none, [.Sleep 2]) := by
  have h1 : ¬ (i ≥ plan.TodoList.length) := by omega
  have h2 : ¬ ((i : Int) = (plan.TodoList.length : Int) - 1) := by omega
  obtain ⟨step, hstep⟩ : ∃ step, plan.TodoList[i]? = some step :=
    ⟨plan.TodoList[i], List.getElem?_eq_getElem (by omega)⟩
  simp only [executeNextStep, h1, if_false, hstep]
  split <;> first | exact ⟨_, rfl⟩ | (simp only [h2, if_false]; exact ⟨_, rfl⟩)

/-- At the terminal index of a plan with at least seven to-do items the step
executor runs `performActualMigration` and returns its error, or the success
detail when there is none. -/
theorem executeNextStep_terminal_of_seven (w : World) (config : MigrationConfig)
    (plan : MigrationPlan) (i : Nat) (hi : i + 1 = plan.TodoList.length) (h7 : 6 ≤ i) :
    executeNextStep w config (some plan) i =
      some (.stepCompleteMsg ((i : Int) + 1)
              (if (performActualMigration w config plan).1 = none
               then "✓ Migration file generated successfully" else "")
              (performActualMigration w config plan).1,
            .Sleep 2 :: (performActualMigration w config plan).2) := by
  have h1 : ¬ (i ≥ plan.TodoList.length) := by omega
  have h2 : (i : Int) = (plan.TodoList.length : Int) - 1 := by omega
  obtain ⟨step, hstep⟩ : ∃ step, plan.TodoList[i]? = some step :=
    ⟨plan.TodoList[i], List.getElem?_eq_getElem (by omega)⟩
  simp only [executeNextStep, h1, if_false, hstep]
  split <;> first | omega | skip
  simp only [h2, if_true]
  cases h : (performActualMigration w config plan).1 <;> simp

/-- At the terminal index of a plan with one to six to-do items the step
executor returns a canned detail with no error and its call log holds the
sleep alone. -/
theorem executeNextStep_terminal_up_to_six (w : World) (config : MigrationConfig)
    (plan : MigrationPlan) (i : Nat) (hi : i + 1 = plan.TodoList.length) (h6 : i < 6) :
    ∃ details, executeNextStep w config (some plan) i =
      some (.stepCompleteMsg ((i : Int) + 1) details none, [.Sleep 2]) := by
  have h1 : ¬ (i ≥ plan.TodoList.length) := by omega
  obtain ⟨step, hstep⟩ : ∃ step, plan.TodoList[i]? = some step :=
    ⟨plan.TodoList[i], List.getElem?_eq_getElem (by omega)⟩
  simp only [executeNextStep, h1, if_false, hstep]
  split
  all_goals first | exact ⟨_, rfl⟩ | (exfalso; interval_cases i <;> simp_all)

/-! ## The conversion + write path -/

theorem foldl_append_singleton {α β : Type} (f : α → β) (l : List α) (init : List β) :
    l.foldl (fun acc x => acc ++ [f x]) init = init ++ l.map f := by
  induction l generalizing init with
  | nil => simp
  | cons x xs ih => simp [ih]

theorem convertTwilioToRingCentral_accounts (s : TwilioPhoneSystem) :
    (convertTwilioToRingCentral s).Accounts =
      s.Users.map fun user =>
        ({ ID := user.ID, Username := user.Name, Contact := user.Email,
           MainNumber := user.PhoneNumber,
           Active := decide (user.Status = "active") } : RingCentralAccount) := by
  simp only [convertTwilioToRingCentral]
  rw [foldl_append_singleton]
  simp

/-- C8 (counterexample): the source file holds the single user AC1 and the plan
orders the single account AC9. The conversion is handed AC9, which matches no
user of the source, and the document written lists the converted account AC9;
dropping unmatched entries would have handed it no user at all. -/
theorem performActualMigration_keeps_unmatched :
    performActualMigration sampleWorld sampleConfig (samplePlan 7 [sampleEntry "AC9"]) =
      (none,
        [.ReadFile "in.json", .Convert { Users := [sampleUser "AC9"], Lines := [] },
         .WriteFile "out.json" "AC9"]) ∧
    sampleWorld.ReadFile sampleConfig.SourceFile = .ok "source" ∧
    sampleWorld.Unmarshal "source" = .ok { Users := [sampleUser "AC1"], Lines := [] } ∧
    matchedOrder (samplePlan 7 [sampleEntry "AC9"]) [sampleUser "AC1"] = [] ∧
    (convertTwilioToRingCentral { Users := [sampleUser "AC9"], Lines := [] }).Accounts.map
      (fun a => a.ID) = ["AC9"] :=
  ⟨by decide, rfl, rfl, by decide, by decide⟩

/-- C8 (amended): whenever `performActualMigration` calls the conversion, the
users it hands over are the accounts of all entries of the plan's recommended
order, in plan order, none dropped and none checked against the source file,
so the converted accounts are as many as the plan entries; and the conversion
is called whenever the source file is read and parsed and the schema pair is
Twilio to RingCentral. -/
theorem performActualMigration_conversion_input (w : World) (config : MigrationConfig)
    (plan : MigrationPlan) :
    (∀ input, Effect.Convert input ∈ (performActualMigration w config plan).2 →
      input.Users = plan.RecommendedOrder.map (fun item => item.Account) ∧
      (convertTwilioToRingCentral input).Accounts.length = plan.RecommendedOrder.length) ∧
    (∀ data parsed, w.ReadFile config.SourceFile = .ok data → w.Unmarshal data = .ok parsed →
      config.SourceFormat = "Twilio" → config.TargetFormat = "RingCentral" →
      Effect.Convert { Users := plan.RecommendedOrder.map (fun item => item.Account),
                       Lines := parsed.Lines } ∈ (performActualMigration w config plan).2) := by
  constructor
  · intro input hin
    have hu : input.Users = plan.RecommendedOrder.map (fun item => item.Account) := by
      unfold performActualMigration at hin
      simp only [foldl_append_singleton, List.nil_append] at hin
      split at hin
      · simp at hin
      · split at hin
        · simp at hin
        · split at hin
          · split at hin
            · simp at hin
              rw [hin]
            · split at hin <;>
              · simp at hin
                rw [hin]
          · simp at hin
    refine ⟨hu, ?_⟩
    rw [convertTwilioToRingCentral_accounts, hu]
    simp
  · intro data parsed hr hp hs ht
    unfold performActualMigration
    simp only [foldl_append_singleton, List.nil_append, hr, hp, hs, ht]
    simp only [and_self, if_true]
    split
    · simp
    · split <;> simp

theorem performActualMigration_conversion_input_witness :
    Effect.Convert { Users := [sampleUser "AC9"], Lines := [] } ∈
        (performActualMigration sampleWorld sampleConfig (samplePlan 7 [sampleEntry "AC9"])).2 ∧
      ({ Users := [sampleUser "AC9"], Lines := [] } : TwilioPhoneSystem).Users =
        (samplePlan 7 [sampleEntry "AC9"]).RecommendedOrder.map (fun item => item.Account) ∧
      (convertTwilioToRingCentral { Users := [sampleUser "AC9"], Lines := [] }).Accounts.length =
        (samplePlan 7 [sampleEntry "AC9"]).RecommendedOrder.length :=
  ⟨(performActualMigration_conversion_input sampleWorld sampleConfig
      (samplePlan 7 [sampleEntry "AC9"])).2 "source"
      { Users := [sampleUser "AC1"], Lines := [] } rfl rfl rfl rfl,
   (performActualMigration_conversion_input sampleWorld sampleConfig
      (samplePlan 7 [sampleEntry "AC9"])).1 _ (by decide)⟩

/-! ## The no-op law -/

/-- C6 (counterexample): a plan-service completion event arriving in Completed
moves the session to ConfirmingPlan; a step-completion event carrying an error
and a direct-migration completion event arriving in EnteringSource move it to
Completed. None of the three pairs is listed in the transition table. -/
theorem completion_event_changes_state :
    (Update idleExt { initialModel with state := .completed }
        (.migrationPlanMsg (some (samplePlan 3 [])) none)).map (fun r => r.1.state) =
      some .confirmingPlan ∧
    (Update idleExt initialModel (.stepCompleteMsg 1 "" (some "late"))).map
        (fun r => r.1.state) = some .completed ∧
    (Update idleExt initialModel (.migrationCompleteMsg none)).map (fun r => r.1.state) =
      some .completed ∧
    initialModel.state = .enteringSource := by
  decide

/-- C6 (amended): a key input that the transition table does not list as
leaving the current state, a spinner tick and a message of any other type
leave the state tag unchanged. Completion events are applied in whatever state
they arrive: a plan-service completion event leads to ConfirmingPlan (no
error) or Completed (error); a step-completion event carrying an error and a
direct-migration completion event lead to Completed. -/
theorem unlisted_input_keeps_state (ext : Ext) (m : model) :
    (∀ k, transitionKey m.state k = false →
      ∃ m' c, Update ext m (.KeyMsg k) = some (m', c) ∧ m'.state = m.state) ∧
    (∀ id, ∃ m' c, Update ext m (.TickMsg id) = some (m', c) ∧ m'.state = m.state) ∧
    (∀ tag, Update ext m (.other tag) = some (m, none)) ∧
    (∀ plan, ∃ m', Update ext m (.migrationPlanMsg plan none) = some (m', none) ∧
      m'.state = .confirmingPlan) ∧
    (∀ plan e, ∃ m', Update ext m (.migrationPlanMsg plan (some e)) = some (m', none) ∧
      m'.state = .completed) ∧
    (∀ n details e, ∃ m', Update ext m (.stepCompleteMsg n details (some e)) = some (m', none) ∧
      m'.state = .completed) ∧
    (∀ err, ∃ m', Update ext m (.migrationCompleteMsg err) = some (m', none) ∧
      m'.state = .completed) := by
  refine ⟨?_, fun id => ⟨_, _, rfl, rfl⟩, fun _ => rfl, fun _ => ⟨_, rfl, rfl⟩,
    fun _ _ => ⟨_, rfl, rfl⟩, fun _ _ _ => ⟨_, rfl, rfl⟩, ?_⟩
  · intro k hk
    cases hs : m.state <;> simp only [hs, transitionKey, decide_eq_false_iff_not, not_or] at hk <;>
      simp only [Update, updateKey, hs]
    all_goals
      split_ifs <;> first
        | (exfalso; tauto)
        | (refine ⟨_, _, rfl, ?_⟩; simp [hs])
  · intro err
    cases err <;> exact ⟨_, rfl, rfl⟩

theorem unlisted_input_keeps_state_witness :
    ∃ m' c, Update idleExt { initialModel with state := .executingPlan } (.KeyMsg "enter") =
      some (m', c) ∧ m'.state = .executingPlan :=
  (unlisted_input_keeps_state idleExt { initialModel with state := .executingPlan }).1
    "enter" rfl

/-! ## The sequential-step invariant -/

theorem update_approve (ext : Ext) (m : model) (k : String)
    (hs : m.state = .confirmingPlan) (hk : k = "y" ∨ k = "Y" ∨ k = "enter") :
    Update ext m (.KeyMsg k) =
      some (initializeExecutionSteps
              { m with userApproved := true, state := .executingPlan, currentStep := 0 },
            some (.Batch .spinnerTick (.executeNextStep m.config m.migrationPlan 0))) := by
  have hq : ¬ (k = "ctrl+c" ∨ k = "q") := by
    rcases hk with rfl | rfl | rfl <;> decide
  simp only [Update, updateKey, hs, hq, hk, if_true, if_false]
  rw [initializeExecutionSteps_eq]

theorem cursor_after_init (m : model) :
    (initializeExecutionSteps m).currentStep = m.currentStep := by
  unfold initializeExecutionSteps
  split
  · rfl
  · split <;> rfl

theorem orderedAt_nil : orderedAt [] 0 := by
  simp [orderedAt]

theorem orderedAt_pending (todoList : List TodoItem) (hne : todoList ≠ []) :
    orderedAt ((pendingSteps todoList).modify (fun s => { s with Status := "running" }) 0) 0 := by
  refine ⟨?_, ?_⟩
  · intro i s hi
    rw [List.getElem?_modify, getElem?_pendingSteps] at hi
    cases hj : todoList[i]? with
    | none => simp [hj] at hi
    | some todo =>
      rw [hj] at hi
      refine ⟨fun h => absurd h (Nat.not_lt_zero i), ?_, ?_⟩
      · intro h0
        subst h0
        simp at hi
        rw [← hi]
      · intro h0
        have hne0 : ¬ (0 = i) := by omega
        simp [hne0] at hi
        rw [← hi]
  · intro _
    have : 0 < todoList.length := List.length_pos.mpr hne
    simpa [pendingSteps] using this

theorem orderedAt_initialize (m : model) (he : m.executionSteps = [])
    (hc : m.currentStep = 0) :
    orderedAt (initializeExecutionSteps m).executionSteps
      (initializeExecutionSteps m).currentStep := by
  rw [cursor_after_init, hc]
  cases hp : m.migrationPlan with
  | none =>
    have : (initializeExecutionSteps m).executionSteps = m.executionSteps := by
      simp [initializeExecutionSteps, hp]
    rw [this, he]
    exact orderedAt_nil
  | some plan =>
    by_cases hnil : plan.TodoList = []
    · rw [steps_after_init_nil m plan hp hnil, he]
      exact orderedAt_nil
    · rw [steps_after_init m plan hp hnil]
      exact orderedAt_pending _ hnil

theorem orderedAt_advance (steps : List ExecutionStep) (c : Nat) (details : String)
    (h : orderedAt steps c) (hlt : c + 1 < steps.length) :
    orderedAt
      ((steps.modify (fun s => { s with Status := "completed", Details := details }) c).modify
        (fun s => { s with Status := "running" }) (c + 1))
      (c + 1) := by
  refine ⟨?_, ?_⟩
  · intro i s hi
    rw [List.getElem?_modify, List.getElem?_modify] at hi
    cases hj : steps[i]? with
    | none => simp [hj] at hi
    | some t =>
      rw [hj] at hi
      have ht := h.1 i t hj
      simp only [Option.map_eq_map, Option.map_some', Option.some.injEq] at hi
      subst hi
      refine ⟨?_, ?_, ?_⟩
      · intro hlt1
        have h1 : ¬ (c + 1 = i) := by omega
        by_cases h2 : c = i
        · simp [h1, h2]
        · simp only [h1, h2, if_false]
          exact ht.1 (by omega)
      · intro heq
        simp [heq]
      · intro hgt
        have h1 : ¬ (c + 1 = i) := by omega
        have h2 : ¬ (c = i) := by omega
        simp only [h1, h2, if_false]
        exact ht.2.2 (by omega)
  · intro _
    simpa using hlt

theorem updateStepComplete_failed (m m' : model) (details e : String) (c : Option Cmd)
    (hu : updateStepComplete m details (some e) = some (m', c)) :
    m'.state = .completed ∧ c = none := by
  simp only [updateStepComplete, Option.some.injEq, Prod.mk.injEq] at hu
  obtain ⟨hm, hc⟩ := hu
  subst hm
  exact ⟨rfl, hc.symm⟩

theorem updateStepComplete_done (m m' : model) (details : String) (c : Option Cmd)
    (h : m.executionSteps.length ≤ m.currentStep + 1)
    (hu : updateStepComplete m details none = some (m', c)) :
    m'.state = .completed ∧ c = none := by
  have hge : m.currentStep + 1 ≥ m.executionSteps.length := h
  unfold updateStepComplete at hu
  simp only at hu
  split_ifs at hu <;>
    first
      | (simp only [Option.some.injEq, Prod.mk.injEq] at hu
         obtain ⟨hm, hc⟩ := hu
         subst hm
         exact ⟨rfl, hc.symm⟩)
      | (exfalso
         simp only [List.length_modify] at *
         omega)

theorem orderedAt_of_reachable (ext : Ext) (m : model) (hr : ExecReachable ext m) :
    m.state = .executingPlan → orderedAt m.executionSteps m.currentStep := by
  induction hr with
  | approve m0 m k c hs he hk hu =>
    intro _
    rw [update_approve ext m0 k hs hk] at hu
    simp only [Option.some.injEq, Prod.mk.injEq] at hu
    rw [← hu.1]
    exact orderedAt_initialize _ he rfl
  | step m m' n details err c _ hs hu ih =>
    intro hs'
    have hinv := ih hs
    simp only [Update] at hu
    cases err with
    | some e =>
      have := (updateStepComplete_failed m m' details e c hu).1
      rw [this] at hs'
      exact absurd hs' (by decide)
    | none =>
      by_cases hlt : m.currentStep + 1 < m.executionSteps.length
      · rw [updateStepComplete_mid m details hlt] at hu
        simp only [Option.some.injEq, Prod.mk.injEq] at hu
        rw [← hu.1]
        exact orderedAt_advance _ _ details hinv hlt
      · have := (updateStepComplete_done m m' details c (by omega) hu).1
        rw [this] at hs'
        exact absurd hs' (by decide)

/-- C3: in every session state reachable from plan approval by step-completion
events delivered while the state is Executing, and itself Executing, with
cursor c: every step below c is "completed", step c is "running", every step
above c is "pending", and c is the index of a step whenever there is a step.
Hence at most one step is "running", and a step is "running" only when its
predecessor is "completed". -/
theorem sequential_step_invariant (ext : Ext) (m : model) (hr : ExecReachable ext m)
    (hs : m.state = .executingPlan) :
    (∀ i s, m.executionSteps[i]? = some s →
      (i < m.currentStep → s.Status = "completed") ∧
      (i = m.currentStep → s.Status = "running") ∧
      (m.currentStep < i → s.Status = "pending")) ∧
    (m.executionSteps ≠ [] → ∃ s, m.executionSteps[m.currentStep]? = some s ∧
      s.Status = "running") ∧
    (∀ (i j : Nat) (si sj : ExecutionStep),
      m.executionSteps[i]? = some si → m.executionSteps[j]? = some sj →
      si.Status = "running" → sj.Status = "running" → i = j) ∧
    (∀ i s, m.executionSteps[i + 1]? = some s → s.Status = "running" →
      ∃ p, m.executionSteps[i]? = some p ∧ (p.Status = "completed" ∨ p.Status = "failed")) := by
  have hinv := orderedAt_of_reachable ext m hr hs
  have hcur : ∀ i s, m.executionSteps[i]? = some s → s.Status = "running" →
      i = m.currentStep := by
    intro i s hi hrun
    have h := hinv.1 i s hi
    rcases Nat.lt_trichotomy i m.currentStep with hlt | heq | hgt
    · have := h.1 hlt
      rw [hrun] at this
      exact absurd this (by decide)
    · exact heq
    · have := h.2.2 hgt
      rw [hrun] at this
      exact absurd this (by decide)
  refine ⟨hinv.1, ?_, ?_, ?_⟩
  · intro hne
    have hlt := hinv.2 hne
    exact ⟨m.executionSteps[m.currentStep], List.getElem?_eq_getElem hlt,
      (hinv.1 _ _ (List.getElem?_eq_getElem hlt)).2.1 rfl⟩
  · intro i j si sj hi hj hri hrj
    rw [hcur i si hi hri, hcur j sj hj hrj]
  · intro i s hi hrun
    have hc := hcur (i + 1) s hi hrun
    have hlen : i + 1 < m.executionSteps.length := by
      rcases List.getElem?_eq_some_iff.mp hi with ⟨h, _⟩
      exact h
    have hi' : i < m.executionSteps.length := by omega
    exact ⟨m.executionSteps[i], List.getElem?_eq_getElem hi',
      Or.inl ((hinv.1 _ _ (List.getElem?_eq_getElem hi')).1 (by omega))⟩

theorem sequential_step_invariant_witness :
    ExecReachable idleExt sampleAdvanced ∧ sampleAdvanced.state = .executingPlan ∧
    sampleAdvanced.currentStep = 1 ∧
    sampleAdvanced.executionSteps.map (fun s => s.Status) = ["completed", "running", "pending"] ∧
    ((∀ i s, sampleAdvanced.executionSteps[i]? = some s →
      (i < sampleAdvanced.currentStep → s.Status = "completed") ∧
      (i = sampleAdvanced.currentStep → s.Status = "running") ∧
      (sampleAdvanced.currentStep < i → s.Status = "pending")) ∧
    (sampleAdvanced.executionSteps ≠ [] →
      ∃ s, sampleAdvanced.executionSteps[sampleAdvanced.currentStep]? = some s ∧
        s.Status = "running") ∧
    (∀ (i j : Nat) (si sj : ExecutionStep),
      sampleAdvanced.executionSteps[i]? = some si → sampleAdvanced.executionSteps[j]? = some sj →
      si.Status = "running" → sj.Status = "running" → i = j) ∧
    (∀ i s, sampleAdvanced.executionSteps[i + 1]? = some s → s.Status = "running" →
      ∃ p, sampleAdvanced.executionSteps[i]? = some p ∧
        (p.Status = "completed" ∨ p.Status = "failed"))) :=
  have hr : ExecReachable idleExt sampleAdvanced :=
    .step sampleApproved sampleAdvanced 1 "ok" none
      (some (.executeNextStep sampleConfig (some (samplePlan 3 [])) 1))
      (.approve (sampleConfirming (samplePlan 3 [])) sampleApproved "y"
        (some (.Batch .spinnerTick (.executeNextStep sampleConfig (some (samplePlan 3 [])) 0)))
        rfl rfl (Or.inl rfl) (by decide))
      (by decide) (by decide)
  ⟨hr, by decide, by decide, by decide, sequential_step_invariant idleExt sampleAdvanced hr (by decide)⟩

/-! ## Filename submission -/

theorem ne_empty_of_hasSuffix_json (s : String) (h : HasSuffix s ".json" = true) : s ≠ "" := by
  intro he
  subst he
  exact absurd h (by decide)

theorem update_enter_source (ext : Ext) (m : model) (hs : m.state = .enteringSource) :
    Update ext m (.KeyMsg "enter") =
      if m.textInput.value = "" then
        some ({ m with textInput := (ext.textInputUpdate m.textInput (.KeyMsg "enter")).1 },
          (ext.textInputUpdate m.textInput (.KeyMsg "enter")).2)
      else
        some ({ m with
                config := { m.config with SourceFile := appendJSONExt m.textInput.value }
                state := .selectingSourceFormat
                textInput := (ext.textInputUpdate m.textInput (.KeyMsg "enter")).1 },
          (ext.textInputUpdate m.textInput (.KeyMsg "enter")).2) := by
  have hq : ¬ ("enter" = "ctrl+c" ∨ "enter" = "q") := by decide
  by_cases hv : m.textInput.value = ""
  · simp only [Update, updateKey, hs, hq, if_false, if_true, hv, ne_eq, not_true_eq_false]
  · simp only [Update, updateKey, hs, hq, if_false, if_true, hv, ne_eq, not_false_eq_true]

theorem update_enter_target (ext : Ext) (m : model) (hs : m.state = .enteringTarget) :
    Update ext m (.KeyMsg "enter") =
      if m.textInput.value = "" then
        some ({ m with textInput := (ext.textInputUpdate m.textInput (.KeyMsg "enter")).1 },
          (ext.textInputUpdate m.textInput (.KeyMsg "enter")).2)
      else
        some ({ m with
                config := { m.config with TargetFile := appendJSONExt m.textInput.value }
                state := .selectingTargetFormat
                textInput := (ext.textInputUpdate m.textInput (.KeyMsg "enter")).1 },
          (ext.textInputUpdate m.textInput (.KeyMsg "enter")).2) := by
  have hq : ¬ ("enter" = "ctrl+c" ∨ "enter" = "q") := by decide
  by_cases hv : m.textInput.value = ""
  · simp only [Update, updateKey, hs, hq, if_false, if_true, hv, ne_eq, not_true_eq_false]
  · simp only [Update, updateKey, hs, hq, if_false, if_true, hv, ne_eq, not_false_eq_true]

/-- C11: on "enter" in EnteringSource (EnteringTarget) with an empty input
buffer the state tag and the configuration are unchanged; with a non-empty
buffer `v` the source (target) path becomes the normalized `v`, which is
non-empty and ends with ".json", the rest of the configuration is unchanged,
and the state advances to SelectingSourceFormat (SelectingTargetFormat). -/
theorem filename_submission (ext : Ext) (m : model) :
    (m.state = .enteringSource →
      ∃ m' c, Update ext m (.KeyMsg "enter") = some (m', c) ∧
        (m.textInput.value = "" → m'.state = m.state ∧ m'.config = m.config) ∧
        (m.textInput.value ≠ "" →
          m'.state = .selectingSourceFormat ∧
          m'.config = { m.config with SourceFile := appendJSONExt m.textInput.value } ∧
          m'.config.SourceFile ≠ "" ∧ HasSuffix m'.config.SourceFile ".json" = true)) ∧
    (m.state = .enteringTarget →
      ∃ m' c, Update ext m (.KeyMsg "enter") = some (m', c) ∧
        (m.textInput.value = "" → m'.state = m.state ∧ m'.config = m.config) ∧
        (m.textInput.value ≠ "" →
          m'.state = .selectingTargetFormat ∧
          m'.config = { m.config with TargetFile := appendJSONExt m.textInput.value } ∧
          m'.config.TargetFile ≠ "" ∧ HasSuffix m'.config.TargetFile ".json" = true)) := by
  constructor
  · intro hs
    by_cases hv : m.textInput.value = ""
    · exact ⟨_, _, (update_enter_source ext m hs).trans (if_pos hv), fun _ => ⟨rfl, rfl⟩,
        fun h => absurd hv h⟩
    · exact ⟨_, _, (update_enter_source ext m hs).trans (if_neg hv), fun h => absurd h hv,
        fun _ => ⟨rfl, rfl, ne_empty_of_hasSuffix_json _ (hasSuffix_appendJSONExt _),
          hasSuffix_appendJSONExt _⟩⟩
  · intro hs
    by_cases hv : m.textInput.value = ""
    · exact ⟨_, _, (update_enter_target ext m hs).trans (if_pos hv), fun _ => ⟨rfl, rfl⟩,
        fun h => absurd hv h⟩
    · exact ⟨_, _, (update_enter_target ext m hs).trans (if_neg hv), fun h => absurd h hv,
        fun _ => ⟨rfl, rfl, ne_empty_of_hasSuffix_json _ (hasSuffix_appendJSONExt _),
          hasSuffix_appendJSONExt _⟩⟩

theorem filename_submission_witness :
    (∃ m' c, Update idleExt
        { initialModel with textInput := { initialModel.textInput with value := "users" } }
        (.KeyMsg "enter") = some (m', c) ∧
      (("users" : String) = "" → m'.state = .enteringSource ∧ m'.config = initialModel.config) ∧
      (("users" : String) ≠ "" →
        m'.state = .selectingSourceFormat ∧
        m'.config = { initialModel.config with SourceFile := appendJSONExt "users" } ∧
        m'.config.SourceFile ≠ "" ∧ HasSuffix m'.config.SourceFile ".json" = true)) ∧
    appendJSONExt "users" = "users.json" :=
  ⟨(filename_submission idleExt
      { initialModel with textInput := { initialModel.textInput with value := "users" } }).1 rfl,
    by decide⟩

/-! ## Conversion between the two schemas -/

theorem convertRingCentralToTwilio_users (rc : RingCentralPhoneSystem) :
    (convertRingCentralToTwilio rc).Users =
      rc.Accounts.map fun account =>
        ({ ID := account.ID, Name := account.Username, Email := account.Contact,
           PhoneNumber := account.MainNumber,
           Status := if account.Active then "active" else "inactive" } : TwilioUser) := by
  simp only [convertRingCentralToTwilio]
  rw [foldl_append_singleton]
  simp

/-- C12: converting a schema-A document to schema B and back keeps the number
of users, and the i-th user comes back with the same id, name, email and
phone; its status is "active" if and only if the original status is "active"
(the intermediate account is active exactly in that case). -/
theorem roundtrip_user (s : TwilioPhoneSystem) (i : Nat) (u : TwilioUser)
    (h : s.Users[i]? = some u) :
    ∃ a u', (convertTwilioToRingCentral s).Accounts[i]? = some a ∧
      (convertRingCentralToTwilio (convertTwilioToRingCentral s)).Users[i]? = some u' ∧
      (a.Active = true ↔ u.Status = "active") ∧
      u'.ID = u.ID ∧ u'.Name = u.Name ∧ u'.Email = u.Email ∧ u'.PhoneNumber = u.PhoneNumber ∧
      (u'.Status = "active" ↔ u.Status = "active") ∧
      (convertRingCentralToTwilio (convertTwilioToRingCentral s)).Users.length =
        s.Users.length := by
  refine ⟨{ ID := u.ID, Username := u.Name, Contact := u.Email, MainNumber := u.PhoneNumber,
             Active := decide (u.Status = "active") },
    { ID := u.ID, Name := u.Name, Email := u.Email, PhoneNumber := u.PhoneNumber,
      Status := if decide (u.Status = "active") = true then "active" else "inactive" },
    ?_, ?_, ?_, rfl, rfl, rfl, rfl, ?_, ?_⟩
  · rw [convertTwilioToRingCentral_accounts, List.getElem?_map, h]
    rfl
  · rw [convertRingCentralToTwilio_users, convertTwilioToRingCentral_accounts,
      List.getElem?_map, List.getElem?_map, h]
    rfl
  · simp
  · by_cases hs : u.Status = "active"
    · simp [hs]
    · simp [hs]
  · rw [convertRingCentralToTwilio_users, convertTwilioToRingCentral_accounts]
    simp

theorem roundtrip_user_witness :
    ∃ a u', (convertTwilioToRingCentral
          { Users := [sampleUser "AC1"], Lines := [] }).Accounts[0]? = some a ∧
      (convertRingCentralToTwilio (convertTwilioToRingCentral
          { Users := [sampleUser "AC1"], Lines := [] })).Users[0]? = some u' ∧
      (a.Active = true ↔ (sampleUser "AC1").Status = "active") ∧
      u'.ID = (sampleUser "AC1").ID ∧ u'.Name = (sampleUser "AC1").Name ∧
      u'.Email = (sampleUser "AC1").Email ∧
      u'.PhoneNumber = (sampleUser "AC1").PhoneNumber ∧
      (u'.Status = "active" ↔ (sampleUser "AC1").Status = "active") ∧
      (convertRingCentralToTwilio (convertTwilioToRingCentral
          { Users := [sampleUser "AC1"], Lines := [] })).Users.length = 1 :=
  roundtrip_user { Users := [sampleUser "AC1"], Lines := [] } 0 (sampleUser "AC1") rfl

theorem enabledFeatures_eq (capabilities : List (String × Bool)) :
    enabledFeatures capabilities =
      (capabilities.filter fun entry => entry.2).map fun entry => entry.1 := by
  have key : ∀ (l : List (String × Bool)) (init : List String),
      l.foldl (fun features entry => if entry.2 then features ++ [entry.1] else features) init =
        init ++ (l.filter fun entry => entry.2).map fun entry => entry.1 := by
    intro l
    induction l with
    | nil => intro init; simp
    | cons x xs ih =>
      intro init
      cases hx : x.2 <;> simp [ih, hx]
  simpa [enabledFeatures] using key capabilities []

theorem convertTwilioToRingCentral_numbers (s : TwilioPhoneSystem) :
    (convertTwilioToRingCentral s).Numbers =
      s.Lines.map fun line =>
        ({ ID := line.SID, Number := line.Number,
           Features := enabledFeatures line.Capabilities,
           Region := line.Location } : RingCentralNumber) := by
  simp only [convertTwilioToRingCentral]
  rw [foldl_append_singleton]
  simp

theorem mem_enabledFeatures (capabilities : List (String × Bool)) (name : String) :
    name ∈ enabledFeatures capabilities ↔ (name, true) ∈ capabilities := by
  rw [enabledFeatures_eq]
  simp only [List.mem_map, List.mem_filter]
  constructor
  · rintro ⟨⟨n, b⟩, ⟨hmem, hb⟩, rfl⟩
    simp only at hb
    subst hb
    exact hmem
  · intro h
    exact ⟨(name, true), ⟨h, rfl⟩, rfl⟩

theorem nodup_enabledFeatures (capabilities : List (String × Bool))
    (hmap : (capabilities.map fun entry => entry.1).Nodup) :
    (enabledFeatures capabilities).Nodup := by
  rw [enabledFeatures_eq]
  exact hmap.sublist ((List.filter_sublist _).map _)

/-- C13: for the i-th line of a schema-A document, whose capability set is a
map (no key twice), the feature list of the i-th number produced by
`convertTwilioToRingCentral` contains a name if and only if the map sends it
to true, contains each such name exactly once, and contains no name that the
map sends to false. -/
theorem features_of_line (s : TwilioPhoneSystem) (i : Nat) (line : TwilioLine)
    (h : s.Lines[i]? = some line)
    (hmap : (line.Capabilities.map fun entry => entry.1).Nodup) :
    ∃ number, (convertTwilioToRingCentral s).Numbers[i]? = some number ∧
      ∀ name : String,
        (name ∈ number.Features ↔ (name, true) ∈ line.Capabilities) ∧
        ((name, true) ∈ line.Capabilities → number.Features.count name = 1) ∧
        ((name, false) ∈ line.Capabilities → name ∉ number.Features) := by
  refine ⟨{ ID := line.SID, Number := line.Number,
             Features := enabledFeatures line.Capabilities, Region := line.Location }, ?_, ?_⟩
  · rw [convertTwilioToRingCentral_numbers, List.getElem?_map, h]
    rfl
  · intro name
    refine ⟨mem_enabledFeatures _ _, ?_, ?_⟩
    · intro hm
      exact List.count_eq_one_of_mem (nodup_enabledFeatures _ hmap)
        ((mem_enabledFeatures _ _).mpr hm)
    · intro hf hin
      have ht := (mem_enabledFeatures _ _).mp hin
      have hinj := List.inj_on_of_nodup_map hmap ht hf rfl
      simp at hinj

theorem features_of_line_witness :
    (∃ number, (convertTwilioToRingCentral
          { Users := [], Lines := [sampleLine] }).Numbers[0]? = some number ∧
      ∀ name : String,
        (name ∈ number.Features ↔ (name, true) ∈ sampleLine.Capabilities) ∧
        ((name, true) ∈ sampleLine.Capabilities → number.Features.count name = 1) ∧
        ((name, false) ∈ sampleLine.Capabilities → name ∉ number.Features)) ∧
    (convertTwilioToRingCentral { Users := [], Lines := [sampleLine] }).Numbers.map
      (fun number => number.Features) = [["voice"]] :=
  ⟨features_of_line { Users := [], Lines := [sampleLine] } 0 sampleLine rfl (by decide),
    by decide⟩

/-! ## Plan-service completion -/

theorem generateMigrationPlan_message (w : World) (ps : PlanService) (config : MigrationConfig)
    (msg : Msg) (h : generateMigrationPlan w ps config = some msg) :
    (∃ e, msg = .migrationPlanMsg none (some e)) ∨ (∃ plan, msg = .migrationPlanMsg (some plan) none) := by
  unfold generateMigrationPlan at h
  simp only at h
  split at h
  · exact Or.inl ⟨_, (Option.some.inj h).symm⟩
  · split at h
    · exact Or.inl ⟨_, (Option.some.inj h).symm⟩
    · split at h
      · exact Or.inl ⟨_, (Option.some.inj h).symm⟩
      · split at h
        · exact absurd h (by simp)
        · exact Or.inl ⟨_, (Option.some.inj h).symm⟩
        · exact Or.inr ⟨_, (Option.some.inj h).symm⟩

/-- C14: every message that the generate-plan operation delivers is a
plan-service completion event that carries either an error and no plan, or a
plan and no error. Consumed in any state (in particular GeneratingPlan), the
first leads to Completed with that error as terminal error, an unset Plan and
no operation issued; the second leads to ConfirmingPlan with the event's plan
stored and no operation issued. -/
theorem plan_completion (ext : Ext) (m : model) (w : World) (ps : PlanService)
    (config : MigrationConfig) (msg : Msg) (h : generateMigrationPlan w ps config = some msg) :
    (∃ e, msg = .migrationPlanMsg none (some e) ∧
      ∃ m', Update ext m msg = some (m', none) ∧
        m'.state = .completed ∧ m'.err = some e ∧ m'.migrationPlan = none) ∨
    (∃ plan, msg = .migrationPlanMsg (some plan) none ∧
      ∃ m', Update ext m msg = some (m', none) ∧
        m'.state = .confirmingPlan ∧ m'.migrationPlan = some plan ∧ m'.err = m.err) := by
  rcases generateMigrationPlan_message w ps config msg h with ⟨e, rfl⟩ | ⟨plan, rfl⟩
  · exact Or.inl ⟨e, rfl, _, rfl, rfl, rfl, rfl⟩
  · exact Or.inr ⟨plan, rfl, _, rfl, rfl, rfl, rfl⟩

theorem plan_completion_witness :
    generateMigrationPlan sampleWorld (samplePlanService "no document here") sampleConfig =
      some (.migrationPlanMsg none
        (some "Engine Room AI analysis failed: no valid JSON found in Engine Room AI response")) ∧
    ((∃ e, Msg.migrationPlanMsg none
          (some "Engine Room AI analysis failed: no valid JSON found in Engine Room AI response") =
          .migrationPlanMsg none (some e) ∧
      ∃ m', Update idleExt { initialModel with state := .showingPlan }
          (.migrationPlanMsg none
            (some "Engine Room AI analysis failed: no valid JSON found in Engine Room AI response")) =
          some (m', none) ∧
        m'.state = .completed ∧ m'.err = some e ∧ m'.migrationPlan = none) ∨
    (∃ plan, Msg.migrationPlanMsg none
          (some "Engine Room AI analysis failed: no valid JSON found in Engine Room AI response") =
          .migrationPlanMsg (some plan) none ∧
      ∃ m', Update idleExt { initialModel with state := .showingPlan }
          (.migrationPlanMsg none
            (some "Engine Room AI analysis failed: no valid JSON found in Engine Room AI response")) =
          some (m', none) ∧
        m'.state = .confirmingPlan ∧ m'.migrationPlan = some plan ∧
        m'.err = initialModel.err)) :=
  ⟨rfl, plan_completion idleExt { initialModel with state := .showingPlan } sampleWorld
    (samplePlanService "no document here") sampleConfig _ rfl⟩

/-! ## Plan confirmation and plan preference -/

/-- C15: in ConfirmingPlan a decline input ("n" or "N") moves the session to
Completed with the terminal error "migration cancelled by user", which is not
empty, and issues no operation; nothing else changes, so the execution steps
stay empty and the user-approved flag stays false. -/
theorem decline_cancels (ext : Ext) (m : model) (k : String)
    (hs : m.state = .confirmingPlan) (hk : k = "n" ∨ k = "N") :
    Update ext m (.KeyMsg k) =
        some ({ m with state := .completed, err := some "migration cancelled by user" }, none) ∧
      ("migration cancelled by user" : String) ≠ "" ∧
      (m.executionSteps = [] →
        ∀ m' c, Update ext m (.KeyMsg k) = some (m', c) → m'.executionSteps = []) ∧
      (m.userApproved = false →
        ∀ m' c, Update ext m (.KeyMsg k) = some (m', c) → m'.userApproved = false) := by
  have hupd : Update ext m (.KeyMsg k) =
      some ({ m with state := .completed, err := some "migration cancelled by user" }, none) := by
    rcases hk with rfl | rfl <;> simp [Update, updateKey, hs]
  refine ⟨hupd, by decide, ?_, ?_⟩
  · intro he m' c hm
    rw [hupd] at hm
    simp only [Option.some.injEq, Prod.mk.injEq] at hm
    rw [← hm.1]
    exact he
  · intro he m' c hm
    rw [hupd] at hm
    simp only [Option.some.injEq, Prod.mk.injEq] at hm
    rw [← hm.1]
    exact he

theorem decline_cancels_witness :
    Update idleExt (sampleConfirming (samplePlan 3 [])) (.KeyMsg "n") =
      some ({ sampleConfirming (samplePlan 3 []) with
              state := .completed, err := some "migration cancelled by user" }, none) :=
  (decline_cancels idleExt (sampleConfirming (samplePlan 3 [])) "n" rfl (Or.inl rfl)).1

/-- C16: in AskingPlanPreference a select input ("enter" or " ") with the
cursor on index 0 sets the use-plan-service flag, moves to GeneratingPlan and
issues the generate-plan operation; with the cursor elsewhere it clears the
flag, moves to Executing and issues the run-direct-migration operation.
Nothing else in the session changes, so no execution step is created. -/
theorem plan_preference_branching (ext : Ext) (m : model) (k : String)
    (hs : m.state = .askingAIPreference) (hk : k = "enter" ∨ k = " ") :
    (m.selectedAI = 0 →
      Update ext m (.KeyMsg k) =
        some ({ m with config := { m.config with UseAI := true }, state := .showingPlan },
          some (.Batch .spinnerTick (.generateMigrationPlan { m.config with UseAI := true })))) ∧
    (m.selectedAI ≠ 0 →
      Update ext m (.KeyMsg k) =
        some ({ m with config := { m.config with UseAI := false }, state := .executingPlan },
          some (.Batch .spinnerTick (.performMigration { m.config with UseAI := false })))) := by
  constructor
  · intro h0
    rcases hk with rfl | rfl <;> simp [Update, updateKey, hs, h0]
  · intro h0
    rcases hk with rfl | rfl <;> simp [Update, updateKey, hs, h0]

theorem plan_preference_branching_witness :
    Update idleExt { initialModel with state := .askingAIPreference } (.KeyMsg "enter") =
      some ({ initialModel with
              config := { initialModel.config with UseAI := true }, state := .showingPlan },
        some (.Batch .spinnerTick
          (.generateMigrationPlan { initialModel.config with UseAI := true }))) ∧
    Update idleExt { initialModel with state := .askingAIPreference, selectedAI := 1 }
        (.KeyMsg " ") =
      some ({ initialModel with
              config := { initialModel.config with UseAI := false }, state := .executingPlan,
              selectedAI := 1 },
        some (.Batch .spinnerTick
          (.performMigration { initialModel.config with UseAI := false }))) :=
  ⟨(plan_preference_branching idleExt { initialModel with state := .askingAIPreference }
      "enter" rfl (Or.inl rfl)).1 rfl,
   (plan_preference_branching idleExt
      { initialModel with state := .askingAIPreference, selectedAI := 1 }
      " " rfl (Or.inr rfl)).2 (by decide)⟩

/-! ## Terminate and the configuration -/

/-- C17: in each of the nine UI states a terminate key ("ctrl+c" or "q") makes
`Update` return the session unchanged together with the quit command and
nothing else. -/
theorem terminate_quits (ext : Ext) (m : model) (k : String) (hk : k = "ctrl+c" ∨ k = "q") :
    Update ext m (.KeyMsg k) = some (m, some .Quit) := by
  cases hs : m.state <;> rcases hk with rfl | rfl <;> simp [Update, updateKey, hs]

theorem terminate_quits_witness :
    Update idleExt sampleApproved (.KeyMsg "ctrl+c") = some (sampleApproved, some .Quit) ∧
    Update idleExt initialModel (.KeyMsg "q") = some (initialModel, some .Quit) :=
  ⟨terminate_quits idleExt sampleApproved "ctrl+c" (Or.inl rfl),
   terminate_quits idleExt initialModel "q" (Or.inr rfl)⟩

theorem config_updateStepComplete (m m' : model) (details : String) (err : Option String)
    (c : Option Cmd) (hu : updateStepComplete m details err = some (m', c)) :
    m'.config = m.config := by
  unfold updateStepComplete at hu
  split at hu
  · simp only [Option.some.injEq, Prod.mk.injEq] at hu
    rw [← hu.1]
  · simp only at hu
    split_ifs at hu <;>
      · simp only [Option.some.injEq, Prod.mk.injEq] at hu
        rw [← hu.1]

theorem config_initializeExecutionSteps (m : model) :
    (initializeExecutionSteps m).config = m.config := by
  rw [initializeExecutionSteps_eq]

theorem updateStepComplete_returns (m : model) (details : String) (err : Option String)
    (h : err ≠ none ∨ m.currentStep < maxInt ∨ m.currentStep < m.executionSteps.length) :
    ∃ m' c, updateStepComplete m details err = some (m', c) := by
  cases err with
  | some e => exact ⟨_, _, rfl⟩
  | none =>
    have hov : ¬ (maxInt ≤ m.currentStep ∧ m.executionSteps.length ≤ m.currentStep) := by
      rcases h with h | h | h
      · exact absurd rfl h
      · omega
      · omega
    unfold updateStepComplete
    simp only [hov, if_false]
    split_ifs <;> exact ⟨_, _, rfl⟩

theorem updateStepComplete_overflow (m : model) (details : String)
    (h1 : maxInt ≤ m.currentStep) (h2 : m.executionSteps.length ≤ m.currentStep) :
    updateStepComplete m details none = none := by
  simp [updateStepComplete, h1, h2]

/-- With the step cursor at the largest `int` (and a step list no longer than a
slice can be), an error-free step-completion event makes `Update` panic. -/
theorem update_panics_at_maxInt (ext : Ext) (m : model) (n : Int) (details : String)
    (hc : m.currentStep = maxInt) (hl : m.executionSteps.length ≤ maxInt) :
    Update ext m (.stepCompleteMsg n details none) = none := by
  simp only [Update]
  exact updateStepComplete_overflow m details (by omega) (by omega)

theorem config_of_late_update (ext : Ext) (m m' : model) (msg : Msg) (c : Option Cmd)
    (hs : m.state = .showingPlan ∨ m.state = .confirmingPlan ∨ m.state = .executingPlan ∨
      m.state = .completed)
    (hu : Update ext m msg = some (m', c)) : m'.config = m.config := by
  cases msg with
  | KeyMsg k =>
    rcases hs with hs | hs | hs | hs <;> simp only [Update, updateKey, hs] at hu <;>
      split_ifs at hu <;>
      · simp only [Option.some.injEq, Prod.mk.injEq] at hu
        first
          | (rw [← hu.1]; done)
          | (rw [← hu.1]; exact config_initializeExecutionSteps _)
  | TickMsg id =>
    simp only [Update, Option.some.injEq, Prod.mk.injEq] at hu
    rw [← hu.1]
  | migrationPlanMsg plan err =>
    cases err <;>
    · simp only [Update, Option.some.injEq, Prod.mk.injEq] at hu
      rw [← hu.1]
  | stepCompleteMsg n details err =>
    exact config_updateStepComplete m m' details err c hu
  | migrationCompleteMsg err =>
    cases err <;>
    · simp only [Update, Option.some.injEq, Prod.mk.injEq] at hu
      rw [← hu.1]
  | other tag =>
    simp only [Update, Option.some.injEq, Prod.mk.injEq] at hu
    rw [← hu.1]

theorem late_update_returns (ext : Ext) (m : model) (msg : Msg)
    (hs : m.state = .showingPlan ∨ m.state = .confirmingPlan ∨ m.state = .executingPlan ∨
      m.state = .completed)
    (hok : (∀ n details, msg ≠ .stepCompleteMsg n details none) ∨ m.currentStep < maxInt) :
    ∃ m' c, Update ext m msg = some (m', c) := by
  cases msg with
  | KeyMsg k =>
    rcases hs with hs | hs | hs | hs <;> simp only [Update, updateKey, hs] <;>
      split_ifs <;> exact ⟨_, _, rfl⟩
  | TickMsg id => exact ⟨_, _, rfl⟩
  | migrationPlanMsg plan err => cases err <;> exact ⟨_, _, rfl⟩
  | stepCompleteMsg n details err =>
    cases err with
    | some e => exact ⟨_, _, rfl⟩
    | none =>
      rcases hok with hok | hok
      · exact absurd rfl (hok n details)
      · exact updateStepComplete_returns m details none (Or.inr (Or.inl hok))
  | migrationCompleteMsg err => cases err <;> exact ⟨_, _, rfl⟩
  | other tag => exact ⟨_, _, rfl⟩

/-- C18: in GeneratingPlan, ConfirmingPlan, Executing and Completed, whenever
`Update` returns a session for a message (key input, spinner tick, any of the
three completion events, or a message of another type), the five fields of the
configuration are those of the session before. `Update` returns a session for
every message, except that an error-free step-completion event received with
the step cursor at the largest `int` overflows the cursor and panics, which
leaves no session. -/
theorem config_read_only (ext : Ext) (m : model) (msg : Msg)
    (hs : m.state = .showingPlan ∨ m.state = .confirmingPlan ∨ m.state = .executingPlan ∨
      m.state = .completed) :
    (∀ m' c, Update ext m msg = some (m', c) →
      m'.config = m.config ∧
      m'.config.SourceFile = m.config.SourceFile ∧
      m'.config.SourceFormat = m.config.SourceFormat ∧
      m'.config.TargetFile = m.config.TargetFile ∧
      m'.config.TargetFormat = m.config.TargetFormat ∧
      m'.config.UseAI = m.config.UseAI) ∧
    (((∀ n details, msg ≠ .stepCompleteMsg n details none) ∨ m.currentStep < maxInt) →
      ∃ m' c, Update ext m msg = some (m', c)) := by
  constructor
  · intro m' c hu
    have hc := config_of_late_update ext m m' msg c hs hu
    exact ⟨hc, by rw [hc], by rw [hc], by rw [hc], by rw [hc], by rw [hc]⟩
  · exact late_update_returns ext m msg hs

theorem config_read_only_witness :
    Update idleExt sampleApproved (.stepCompleteMsg 1 "ok" none) =
      some (sampleAdvanced,
        some (.executeNextStep sampleConfig (some (samplePlan 3 [])) 1)) ∧
    (sampleAdvanced.config = sampleApproved.config ∧
      sampleAdvanced.config.SourceFile = sampleApproved.config.SourceFile ∧
      sampleAdvanced.config.SourceFormat = sampleApproved.config.SourceFormat ∧
      sampleAdvanced.config.TargetFile = sampleApproved.config.TargetFile ∧
      sampleAdvanced.config.TargetFormat = sampleApproved.config.TargetFormat ∧
      sampleAdvanced.config.UseAI = sampleApproved.config.UseAI) ∧
    (∃ m' c, Update idleExt sampleApproved (.KeyMsg "n") = some (m', c)) :=
  ⟨by decide,
   (config_read_only idleExt sampleApproved (.stepCompleteMsg 1 "ok" none)
      (Or.inr (Or.inr (Or.inl (by decide))))).1 sampleAdvanced
      (some (.executeNextStep sampleConfig (some (samplePlan 3 [])) 1)) (by decide),
   (config_read_only idleExt sampleApproved (.KeyMsg "n")
      (Or.inr (Or.inr (Or.inl (by decide))))).2 (Or.inl (fun _ _ h => Msg.noConfusion h))⟩

/-! ## Unsupported schema pair -/

/-- C20: when the schema pair of the configuration is not (Twilio,
RingCentral), `performActualMigration` returns an error, whatever the source
file holds, and its call log contains no file write and no conversion. -/
theorem unsupported_pair_fails (w : World) (config : MigrationConfig) (plan : MigrationPlan)
    (h : ¬ (config.SourceFormat = "Twilio" ∧ config.TargetFormat = "RingCentral")) :
    (∃ e, (performActualMigration w config plan).1 = some e) ∧
    (∀ path data, Effect.WriteFile path data ∉ (performActualMigration w config plan).2) ∧
    (∀ input, Effect.Convert input ∉ (performActualMigration w config plan).2) ∧
    (∀ data parsed, w.ReadFile config.SourceFile = .ok data → w.Unmarshal data = .ok parsed →
      performActualMigration w config plan =
        (some "Engine Room AI-enhanced migration currently only supports Twilio to RingCentral",
          [.ReadFile config.SourceFile])) := by
  refine ⟨?_, ?_, ?_, ?_⟩
  · unfold performActualMigration
    split
    · exact ⟨_, rfl⟩
    · split
      · exact ⟨_, rfl⟩
      · simp only [h, if_false]
        exact ⟨_, rfl⟩
  · intro path data
    unfold performActualMigration
    split
    · simp
    · split
      · simp
      · simp only [h, if_false]
        simp
  · intro input
    unfold performActualMigration
    split
    · simp
    · split
      · simp
      · simp only [h, if_false]
        simp
  · intro data parsed hr hp
    unfold performActualMigration
    simp only [hr, hp, h, if_false]

theorem unsupported_pair_fails_witness :
    performActualMigration sampleWorld
        { sampleConfig with SourceFormat := "RingCentral", TargetFormat := "Twilio" }
        (samplePlan 7 [sampleEntry "AC1"]) =
      (some "Engine Room AI-enhanced migration currently only supports Twilio to RingCentral",
        [.ReadFile "in.json"]) :=
  (unsupported_pair_fails sampleWorld
    { sampleConfig with SourceFormat := "RingCentral", TargetFormat := "Twilio" }
    (samplePlan 7 [sampleEntry "AC1"]) (by decide)).2.2.2 "source"
    { Users := [sampleUser "AC1"], Lines := [] } rfl rfl

/-! ## Extraction of the plan document -/

theorem Index_bounds (s : String) (c : Char) (h : c ∈ s.data) :
    0 ≤ Index s c ∧ Index s c < (s.data.length : Int) := by
  have hlt : s.data.indexOf c < s.data.length := List.indexOf_lt_length.mpr h
  simp only [Index, h, if_true]
  omega

theorem LastIndex_bounds (s : String) (c : Char) (h : c ∈ s.data) :
    0 ≤ LastIndex s c ∧ LastIndex s c < (s.data.length : Int) := by
  have hr : c ∈ s.data.reverse := List.mem_reverse.mpr h
  have hlt : s.data.reverse.indexOf c < s.data.reverse.length := List.indexOf_lt_length.mpr hr
  rw [List.length_reverse] at hlt
  simp only [LastIndex, h, if_true]
  omega

theorem Index_of_not_mem (s : String) (c : Char) (h : c ∉ s.data) : Index s c = -1 := by
  simp [Index, h]

theorem LastIndex_of_not_mem (s : String) (c : Char) (h : c ∉ s.data) : LastIndex s c = -1 := by
  simp [LastIndex, h]

/-- C19 (the code at the failing input): for the reply "} {", which contains
an opening and a closing brace, the slice expression `response[2:1]` panics:
the extraction yields neither the no-valid-JSON error nor a document, and
`PlanMigrationOrder` and the generate-plan operation fault with it. -/
theorem extractJSON_faults :
    extractJSON "\x7d \x7b" = none ∧
    Index "\x7d \x7b" (Char.ofNat 123) = 2 ∧ LastIndex "\x7d \x7b" (Char.ofNat 125) + 1 = 1 ∧
    PlanMigrationOrder (samplePlanService "\x7d \x7b") "key" [] = none ∧
    generateMigrationPlan sampleWorld (samplePlanService "\x7d \x7b") sampleConfig = none := by
  refine ⟨rfl, by decide, by decide, rfl, rfl⟩

/-- The extraction returns the no-valid-JSON error exactly when the reply has
no opening brace or no closing brace; it faults exactly when both are there
and the last closing brace stands more than one place before the first opening
brace; in every other case it yields the characters from the first opening
brace through the last closing brace (none when the closing brace stands right
before the opening one). -/
theorem extractJSON_cases (r : String) :
    (extractJSON r = some (.error "no valid JSON found in Engine Room AI response") ↔
      (Char.ofNat 123 ∉ r.data ∨ Char.ofNat 125 ∉ r.data)) ∧
    (extractJSON r = none ↔
      (Char.ofNat 123 ∈ r.data ∧ Char.ofNat 125 ∈ r.data ∧
        LastIndex r (Char.ofNat 125) + 1 < Index r (Char.ofNat 123))) ∧
    (Char.ofNat 123 ∈ r.data → Char.ofNat 125 ∈ r.data →
      Index r (Char.ofNat 123) ≤ LastIndex r (Char.ofNat 125) + 1 →
      extractJSON r = some (.ok ⟨(r.data.drop (Index r (Char.ofNat 123)).toNat).take
        ((LastIndex r (Char.ofNat 125) + 1).toNat - (Index r (Char.ofNat 123)).toNat)⟩)) := by
  by_cases ho : Char.ofNat 123 ∈ r.data
  · by_cases hc : Char.ofNat 125 ∈ r.data
    · have h1 := Index_bounds r _ ho
      have h2 := LastIndex_bounds r _ hc
      have hne : ¬ (Index r (Char.ofNat 123) = -1 ∨ LastIndex r (Char.ofNat 125) + 1 = 0) := by
        omega
      by_cases hle : Index r (Char.ofNat 123) ≤ LastIndex r (Char.ofNat 125) + 1
      · have hs : sliceString r (Index r (Char.ofNat 123)) (LastIndex r (Char.ofNat 125) + 1) =
            some ⟨(r.data.drop (Index r (Char.ofNat 123)).toNat).take
              ((LastIndex r (Char.ofNat 125) + 1).toNat - (Index r (Char.ofNat 123)).toNat)⟩ := by
          have hb : 0 ≤ Index r (Char.ofNat 123) ∧
              Index r (Char.ofNat 123) ≤ LastIndex r (Char.ofNat 125) + 1 ∧
              LastIndex r (Char.ofNat 125) + 1 ≤ (r.data.length : Int) := by omega
          simp only [sliceString, hb, and_self, if_true]
        have he : extractJSON r = some (.ok ⟨(r.data.drop (Index r (Char.ofNat 123)).toNat).take
            ((LastIndex r (Char.ofNat 125) + 1).toNat - (Index r (Char.ofNat 123)).toNat)⟩) := by
          simp only [extractJSON, hne, if_false, hs]
        refine ⟨?_, ?_, fun _ _ _ => he⟩
        · rw [he]
          simp [ho, hc]
        · rw [he]
          simp only [reduceCtorEq, false_iff, not_and, not_lt]
          intro _ _
          exact hle
      · have hs : sliceString r (Index r (Char.ofNat 123)) (LastIndex r (Char.ofNat 125) + 1) =
            none := by
          have hb : ¬ (0 ≤ Index r (Char.ofNat 123) ∧
              Index r (Char.ofNat 123) ≤ LastIndex r (Char.ofNat 125) + 1 ∧
              LastIndex r (Char.ofNat 125) + 1 ≤ (r.data.length : Int)) := by omega
          simp only [sliceString, hb, if_false]
        have he : extractJSON r = none := by
          simp only [extractJSON, hne, if_false, hs]
        refine ⟨?_, ?_, fun _ _ h => absurd h hle⟩
        · rw [he]
          simp [ho, hc]
        · rw [he]
          simp only [true_iff]
          exact ⟨ho, hc, by omega⟩
    · have he : extractJSON r = some (.error "no valid JSON found in Engine Room AI response") := by
        simp [extractJSON, LastIndex_of_not_mem r _ hc]
      refine ⟨?_, ?_, fun _ h => absurd h hc⟩
      · rw [he]
        simp [hc]
      · rw [he]
        simp [hc]
  · have he : extractJSON r = some (.error "no valid JSON found in Engine Room AI response") := by
      simp [extractJSON, Index_of_not_mem r _ ho]
    refine ⟨?_, ?_, fun h => absurd h ho⟩
    · rw [he]
      simp [ho]
    · rw [he]
      simp [ho]

/-! ## Errors, the defensive bound and ignored input -/

/-- C21: in every session state, a plan-service completion event, a
step-completion event and a direct-migration completion event carrying an
error `e` each lead to Completed with `e` as the terminal error and issue no
operation. -/
theorem error_reaches_completed (ext : Ext) (m : model) (e : String) :
    (∀ plan, ∃ m', Update ext m (.migrationPlanMsg plan (some e)) = some (m', none) ∧
      m'.state = .completed ∧ m'.err = some e) ∧
    (∀ n details, ∃ m', Update ext m (.stepCompleteMsg n details (some e)) = some (m', none) ∧
      m'.state = .completed ∧ m'.err = some e) ∧
    (∃ m', Update ext m (.migrationCompleteMsg (some e)) = some (m', none) ∧
      m'.state = .completed ∧ m'.err = some e) :=
  ⟨fun _ => ⟨_, rfl, rfl, rfl⟩, fun _ _ => ⟨_, rfl, rfl, rfl⟩, ⟨_, rfl, rfl, rfl⟩⟩

/-- C23: for every plan and every step index at or beyond the length of its
to-do list, the step executor returns the completion signal, which carries no
detail, with no error; it does not fault (the to-do list is not indexed) and
its call log holds the sleep alone (no read, no conversion, no write). -/
theorem executeNextStep_beyond_bound (w : World) (config : MigrationConfig)
    (plan : MigrationPlan) (i : Nat) (h : plan.TodoList.length ≤ i) :
    executeNextStep w config (some plan) i = some (.migrationCompleteMsg none, [.Sleep 2]) := by
  have h1 : i ≥ plan.TodoList.length := h
  simp only [executeNextStep, h1, if_true]

theorem executeNextStep_beyond_bound_witness :
    executeNextStep sampleWorld sampleConfig (some (samplePlan 3 [])) 3 =
      some (.migrationCompleteMsg none, [.Sleep 2]) :=
  executeNextStep_beyond_bound sampleWorld sampleConfig (samplePlan 3 []) 3 (by decide)

/-- C24: in GeneratingPlan and in Executing every key message other than
"ctrl+c" and "q" returns the session unchanged and no command. -/
theorem waiting_states_ignore_keys (ext : Ext) (m : model) (k : String)
    (hs : m.state = .showingPlan ∨ m.state = .executingPlan)
    (hk : k ≠ "ctrl+c" ∧ k ≠ "q") :
    Update ext m (.KeyMsg k) = some (m, none) := by
  rcases hs with hs | hs <;> simp [Update, updateKey, hs, hk.1, hk.2]

theorem waiting_states_ignore_keys_witness :
    Update idleExt sampleApproved (.KeyMsg "enter") = some (sampleApproved, none) ∧
    Update idleExt { initialModel with state := .showingPlan } (.KeyMsg "y") =
      some ({ initialModel with state := .showingPlan }, none) :=
  ⟨waiting_states_ignore_keys idleExt sampleApproved "enter" (Or.inr (by decide)) (by decide),
   waiting_states_ignore_keys idleExt { initialModel with state := .showingPlan } "y"
    (Or.inl rfl) (by decide)⟩

/-! ## Count and order of the conversion -/

/-- C27: `convertTwilioToRingCentral` yields as many accounts as there are
users and as many numbers as there are lines; the i-th account copies id,
name, email and phone of the i-th user and is active exactly when its status
is "active"; the i-th number copies sid, number and location of the i-th line
(its features are the enabled capabilities of that line). -/
theorem convert_preserves_order (s : TwilioPhoneSystem) :
    (convertTwilioToRingCentral s).Accounts.length = s.Users.length ∧
    (convertTwilioToRingCentral s).Numbers.length = s.Lines.length ∧
    (∀ i : Nat, (convertTwilioToRingCentral s).Accounts[i]? =
      (s.Users[i]?).map fun (user : TwilioUser) =>
        ({ ID := user.ID, Username := user.Name, Contact := user.Email,
           MainNumber := user.PhoneNumber,
           Active := decide (user.Status = "active") } : RingCentralAccount)) ∧
    (∀ i : Nat, (convertTwilioToRingCentral s).Numbers[i]? =
      (s.Lines[i]?).map fun (line : TwilioLine) =>
        ({ ID := line.SID, Number := line.Number,
           Features := enabledFeatures line.Capabilities,
           Region := line.Location } : RingCentralNumber)) := by
  refine ⟨?_, ?_, ?_, ?_⟩
  · rw [convertTwilioToRingCentral_accounts, List.length_map]
  · rw [convertTwilioToRingCentral_numbers, List.length_map]
  · intro i
    rw [convertTwilioToRingCentral_accounts, List.getElem?_map]
  · intro i
    rw [convertTwilioToRingCentral_numbers, List.getElem?_map]

/-! ## Key input never moves backwards -/

/-- C28: whenever `Update` handles a key message, the state tag of the
resulting session is the same as or later than the state tag before, in the
declaration order of the states. -/
theorem key_never_moves_back (ext : Ext) (m m' : model) (k : String) (c : Option Cmd)
    (h : Update ext m (.KeyMsg k) = some (m', c)) :
    m.state.rank ≤ m'.state.rank := by
  simp only [Update, updateKey] at h
  cases hs : m.state <;> simp only [hs] at h
  all_goals
    split_ifs at h
  all_goals
    first
      | (simp only [Option.some.injEq, Prod.mk.injEq] at h
         obtain ⟨h1, _⟩ := h
         subst h1
         first
          | (simp only [hs, state.rank]; done)
          | (simp only [hs, state.rank]; omega)
          | (rw [initializeExecutionSteps_eq]; simp [state.rank, hs]))
      | (split at h
         · exact absurd h (by simp)
         · simp only [Option.some.injEq, Prod.mk.injEq] at h
           obtain ⟨h1, _⟩ := h
           subst h1
           simp [hs, state.rank])

theorem key_never_moves_back_witness :
    (sampleConfirming (samplePlan 3 [])).state.rank ≤ sampleApproved.state.rank ∧
    (sampleConfirming (samplePlan 3 [])).state.rank = 6 ∧ sampleApproved.state.rank = 7 :=
  ⟨key_never_moves_back idleExt (sampleConfirming (samplePlan 3 [])) sampleApproved "y"
      (some (.Batch .spinnerTick (.executeNextStep sampleConfig (some (samplePlan 3 [])) 0)))
      (by decide),
   by decide, by decide⟩

/-! ## Empty to-do list -/

/-- C26: approving a plan whose to-do list is empty creates no execution step
(the list of steps stays as it was, empty), moves to Executing and issues the
execute-step operation for index 0; that operation returns the completion
signal after the sleep alone, without read, conversion or write; consuming the
signal ends the session in Completed, marked done, with the terminal error
left as it was (none), although no file was written. -/
theorem empty_todo_list (ext : Ext) (w : World) (m : model) (plan : MigrationPlan) (k : String)
    (hs : m.state = .confirmingPlan) (hp : m.migrationPlan = some plan)
    (hnil : plan.TodoList = []) (hk : k = "y" ∨ k = "Y" ∨ k = "enter") :
    ∃ m1, Update ext m (.KeyMsg k) =
        some (m1, some (.Batch .spinnerTick (.executeNextStep m.config (some plan) 0))) ∧
      m1.state = .executingPlan ∧ m1.executionSteps = m.executionSteps ∧
      (m.executionSteps = [] → m1.executionSteps.length = 0) ∧
      executeNextStep w m.config (some plan) 0 =
        some (.migrationCompleteMsg none, [.Sleep 2]) ∧
      ∃ m2, Update ext m1 (.migrationCompleteMsg none) = some (m2, none) ∧
        m2.state = .completed ∧ m2.migrationDone = true ∧ m2.err = m.err ∧
        (m.err = none → m2.err = none) ∧ m2.executionSteps = m.executionSteps := by
  obtain ⟨m1, hm1⟩ : ∃ m1, m1 = initializeExecutionSteps
      { m with userApproved := true, state := .executingPlan, currentStep := 0 } := ⟨_, rfl⟩
  have hupd := update_approve ext m k hs hk
  rw [← hm1, hp] at hupd
  have hsteps : m1.executionSteps = m.executionSteps := by
    rw [hm1]
    exact steps_after_init_nil
      { m with userApproved := true, state := .executingPlan, currentStep := 0 } plan hp hnil
  have hstate : m1.state = .executingPlan := by
    rw [hm1, initializeExecutionSteps_eq]
  have herr : m1.err = m.err := by
    rw [hm1, initializeExecutionSteps_eq]
  refine ⟨m1, hupd, hstate, hsteps, ?_, ?_, _, rfl, rfl, rfl, herr, ?_, hsteps⟩
  · intro he
    rw [hsteps]
    simp [he]
  · simp [executeNextStep, hnil]
  · intro he
    exact herr.trans he

theorem empty_todo_list_witness :
    ∃ m1, Update idleExt (sampleConfirming (samplePlan 0 [])) (.KeyMsg "y") =
        some (m1, some (.Batch .spinnerTick
          (.executeNextStep sampleConfig (some (samplePlan 0 [])) 0))) ∧
      m1.state = .executingPlan ∧ m1.executionSteps = [] ∧
      (([] : List ExecutionStep) = [] → m1.executionSteps.length = 0) ∧
      executeNextStep sampleWorld sampleConfig (some (samplePlan 0 [])) 0 =
        some (.migrationCompleteMsg none, [.Sleep 2]) ∧
      ∃ m2, Update idleExt m1 (.migrationCompleteMsg none) = some (m2, none) ∧
        m2.state = .completed ∧ m2.migrationDone = true ∧ m2.err = none ∧
        ((none : Option String) = none → m2.err = none) ∧ m2.executionSteps = [] :=
  empty_todo_list idleExt sampleWorld (sampleConfirming (samplePlan 0 [])) (samplePlan 0 []) "y"
    rfl rfl rfl (Or.inl rfl)

/-! ## Menu cursors stay in range -/

theorem menus_updateStepComplete (m m' : model) (details : String) (err : Option String)
    (c : Option Cmd) (hu : updateStepComplete m details err = some (m', c)) :
    menusIntact m → menusIntact m' := by
  intro h
  unfold updateStepComplete at hu
  split at hu
  · simp only [Option.some.injEq, Prod.mk.injEq] at hu
    rw [← hu.1]
    exact h
  · simp only at hu
    split_ifs at hu <;>
      · simp only [Option.some.injEq, Prod.mk.injEq] at hu
        rw [← hu.1]
        exact h

theorem menus_initializeExecutionSteps (m : model) :
    menusIntact m → menusIntact (initializeExecutionSteps m) := by
  intro h
  rw [initializeExecutionSteps_eq]
  exact h

theorem menusIntact_update (ext : Ext) (m m' : model) (msg : Msg) (c : Option Cmd)
    (h : menusIntact m) (hu : Update ext m msg = some (m', c)) : menusIntact m' := by
  cases msg with
  | KeyMsg k =>
    obtain ⟨h1, h2, h3, h4, h5, h6⟩ := h
    simp only [Update, updateKey] at hu
    cases hs : m.state <;> simp only [hs] at hu
    all_goals
      split_ifs at hu
    all_goals
      first
        | (simp only [Option.some.injEq, Prod.mk.injEq] at hu
           obtain ⟨hm, _⟩ := hu
           subst hm
           first
            | exact ⟨h1, h2, h3, h4, h5, h6⟩
            | exact menus_initializeExecutionSteps _ ⟨h1, h2, h3, h4, h5, h6⟩
            | (refine ⟨h1, h2, h3, ?_, ?_, ?_⟩ <;> simp only [] <;> omega))
        | (split at hu
           · exact absurd hu (by simp)
           · simp only [Option.some.injEq, Prod.mk.injEq] at hu
             obtain ⟨hm, _⟩ := hu
             subst hm
             exact ⟨h1, h2, h3, h4, h5, h6⟩)
  | TickMsg id =>
    simp only [Update, Option.some.injEq, Prod.mk.injEq] at hu
    rw [← hu.1]
    exact h
  | migrationPlanMsg plan err =>
    cases err <;>
    · simp only [Update, Option.some.injEq, Prod.mk.injEq] at hu
      rw [← hu.1]
      exact h
  | stepCompleteMsg n details err =>
    simp only [Update] at hu
    exact menus_updateStepComplete m m' details err c hu h
  | migrationCompleteMsg err =>
    cases err <;>
    · simp only [Update, Option.some.injEq, Prod.mk.injEq] at hu
      rw [← hu.1]
      exact h
  | other tag =>
    simp only [Update, Option.some.injEq, Prod.mk.injEq] at hu
    rw [← hu.1]
    exact h

theorem update_returns (ext : Ext) (m : model) (msg : Msg) (h : menusIntact m)
    (hok : (∀ n details, msg ≠ .stepCompleteMsg n details none) ∨ m.currentStep < maxInt) :
    ∃ m' c, Update ext m msg = some (m', c) := by
  obtain ⟨h1, h2, h3, h4, h5, h6⟩ := h
  cases msg with
  | KeyMsg k =>
    have hsrc : ∃ f, m.sourceFormats[m.selectedSource]? = some f :=
      ⟨_, List.getElem?_eq_getElem h4⟩
    have htgt : ∃ f, m.targetFormats[m.selectedTarget]? = some f :=
      ⟨_, List.getElem?_eq_getElem h5⟩
    obtain ⟨f1, hf1⟩ := hsrc
    obtain ⟨f2, hf2⟩ := htgt
    simp only [Update, updateKey]
    cases hs : m.state <;> simp only [hf1, hf2]
    all_goals
      split_ifs <;> exact ⟨_, _, rfl⟩
  | TickMsg id => exact ⟨_, _, rfl⟩
  | migrationPlanMsg plan err => cases err <;> exact ⟨_, _, rfl⟩
  | stepCompleteMsg n details err =>
    cases err with
    | some e => exact ⟨_, _, rfl⟩
    | none =>
      rcases hok with hok | hok
      · exact absurd rfl (hok n details)
      · exact updateStepComplete_returns m details none (Or.inr (Or.inl hok))
  | migrationCompleteMsg err => cases err <;> exact ⟨_, _, rfl⟩
  | other tag => exact ⟨_, _, rfl⟩

theorem reachable_of_runStep (ext : Ext) (r r' : Run) (msg : Msg)
    (hr : Reachable ext r.session) (h : runStep ext r msg = some r') :
    Reachable ext r'.session := by
  unfold runStep at h
  split at h
  · exact absurd h (by simp)
  · split at h
    · exact absurd h (by simp)
    · rename_i m c hu
      simp only [Option.some.injEq] at h
      rw [← h]
      exact .step r.session m msg c hr hu

theorem reachable_of_runFrom (ext : Ext) (msgs : List Msg) (r r' : Run)
    (hr : Reachable ext r.session) (h : runFrom ext r msgs = some r') :
    Reachable ext r'.session := by
  induction msgs generalizing r with
  | nil =>
    simp only [runFrom, Option.some.injEq] at h
    rw [← h]
    exact hr
  | cons msg rest ih =>
    simp only [runFrom] at h
    split at h
    · exact absurd h (by simp)
    · rename_i r1 h1
      exact ih r1 (reachable_of_runStep ext r r1 msg hr h1) h

theorem menusIntact_initialModel : menusIntact initialModel := by
  refine ⟨rfl, rfl, rfl, ?_, ?_, ?_⟩ <;> decide

theorem menusIntact_of_reachable (ext : Ext) (m : model) (hr : Reachable ext m) :
    menusIntact m := by
  induction hr with
  | init => exact menusIntact_initialModel
  | step m m' msg c _ hu ih => exact menusIntact_update ext m m' msg c ih hu

/-- C25: in every session state reachable from `initialModel` by any sequence
of messages, each of the three selection indices is below the length of its
option list (the lists are those of `initialModel`, two options each), so the
indexed reads on select find an option and `Update` handles every key message
without a fault. The only message that `Update` does not handle in such a
session is an error-free step-completion event received with the step cursor
at the largest `int` or beyond: the fault is the overflow of that cursor, not
a menu read. -/
theorem menu_cursors_in_range (ext : Ext) (m : model) (hr : Reachable ext m) :
    m.selectedSource < m.sourceFormats.length ∧
    m.selectedTarget < m.targetFormats.length ∧
    m.selectedAI < m.aiOptions.length ∧
    m.sourceFormats.length = 2 ∧ m.targetFormats.length = 2 ∧ m.aiOptions.length = 2 ∧
    (∃ f, m.sourceFormats[m.selectedSource]? = some f) ∧
    (∃ f, m.targetFormats[m.selectedTarget]? = some f) ∧
    (∀ k, ∃ m' c, Update ext m (.KeyMsg k) = some (m', c)) ∧
    (∀ msg, Update ext m msg = none →
      (∃ n details, msg = .stepCompleteMsg n details none) ∧ maxInt ≤ m.currentStep) := by
  have h := menusIntact_of_reachable ext m hr
  obtain ⟨h1, h2, h3, h4, h5, h6⟩ := h
  refine ⟨h4, h5, h6, ?_, ?_, ?_, ⟨_, List.getElem?_eq_getElem h4⟩,
    ⟨_, List.getElem?_eq_getElem h5⟩, ?_, ?_⟩
  · rw [h1]; rfl
  · rw [h2]; rfl
  · rw [h3]; rfl
  · intro k
    exact update_returns ext m (.KeyMsg k) ⟨h1, h2, h3, h4, h5, h6⟩
      (Or.inl (fun _ _ hk => Msg.noConfusion hk))
  · intro msg hnone
    by_cases hstep : ∃ n details, msg = .stepCompleteMsg n details none
    · refine ⟨hstep, ?_⟩
      by_contra hlt
      obtain ⟨m', c, hu⟩ := update_returns ext m msg ⟨h1, h2, h3, h4, h5, h6⟩
        (Or.inr (by omega))
      rw [hnone] at hu
      exact absurd hu (by simp)
    · exfalso
      obtain ⟨m', c, hu⟩ := update_returns ext m msg ⟨h1, h2, h3, h4, h5, h6⟩
        (Or.inl (fun n details hm => hstep ⟨n, details, hm⟩))
      rw [hnone] at hu
      exact absurd hu (by simp)

theorem menu_cursors_in_range_witness :
    runFrom typingExt { session := initialModel, outstanding := [] }
        [.KeyMsg "a", .KeyMsg "enter", .KeyMsg "down"] =
      some { session := sampleSelecting, outstanding := [] } ∧
    (sampleSelecting.selectedSource < sampleSelecting.sourceFormats.length ∧
    sampleSelecting.selectedTarget < sampleSelecting.targetFormats.length ∧
    sampleSelecting.selectedAI < sampleSelecting.aiOptions.length ∧
    sampleSelecting.sourceFormats.length = 2 ∧ sampleSelecting.targetFormats.length = 2 ∧
    sampleSelecting.aiOptions.length = 2 ∧
    (∃ f, sampleSelecting.sourceFormats[sampleSelecting.selectedSource]? = some f) ∧
    (∃ f, sampleSelecting.targetFormats[sampleSelecting.selectedTarget]? = some f) ∧
    (∀ k, ∃ m' c, Update typingExt sampleSelecting (.KeyMsg k) = some (m', c)) ∧
    (∀ msg, Update typingExt sampleSelecting msg = none →
      (∃ n details, msg = .stepCompleteMsg n details none) ∧
        maxInt ≤ sampleSelecting.currentStep)) :=
  ⟨by decide,
   menu_cursors_in_range typingExt sampleSelecting
    (reachable_of_runFrom typingExt [.KeyMsg "a", .KeyMsg "enter", .KeyMsg "down"]
      { session := initialModel, outstanding := [] }
      { session := sampleSelecting, outstanding := [] } .init (by decide))⟩

/-! ## Single outstanding operation -/

theorem issued_key (ext : Ext) (hw : widgetsOnly ext) (m m' : model) (k : String)
    (c : Option Cmd) (hu : Update ext m (.KeyMsg k) = some (m', c)) :
    issued c = [] ∨
    (∃ config, issued c = [.generateMigrationPlan config] ∧ m'.state = .showingPlan) ∨
    (∃ config, issued c = [.performMigration config] ∧ m'.state = .executingPlan) ∨
    (∃ config plan, issued c = [.executeNextStep config plan 0] ∧ m'.state = .executingPlan ∧
      m'.currentStep = 0) := by
  simp only [Update, updateKey] at hu
  cases hs : m.state <;> simp only [hs] at hu
  all_goals
    split_ifs at hu
  all_goals
    first
      | (simp only [Option.some.injEq, Prod.mk.injEq] at hu
         obtain ⟨hm, hc⟩ := hu
         subst hm
         subst hc
         first
          | exact Or.inl rfl
          | exact Or.inl (hw.1 _ _)
          | exact Or.inr (Or.inl ⟨_, rfl, rfl⟩)
          | exact Or.inr (Or.inr (Or.inl ⟨_, rfl, rfl⟩))
          | exact Or.inr (Or.inr (Or.inr ⟨_, _, rfl, by rw [initializeExecutionSteps_eq],
              by rw [initializeExecutionSteps_eq]⟩)))
      | (split at hu
         · exact absurd hu (by simp)
         · simp only [Option.some.injEq, Prod.mk.injEq] at hu
           obtain ⟨hm, hc⟩ := hu
           subst hm
           subst hc
           exact Or.inl rfl)

theorem update_key_waiting (ext : Ext) (m m' : model) (k : String) (c : Option Cmd)
    (hs : m.state = .showingPlan ∨ m.state = .executingPlan)
    (hu : Update ext m (.KeyMsg k) = some (m', c)) : m' = m ∧ issued c = [] := by
  simp only [Update, updateKey] at hu
  rcases hs with hs | hs <;> simp only [hs] at hu <;> split_ifs at hu <;>
    · simp only [Option.some.injEq, Prod.mk.injEq] at hu
      obtain ⟨hm, hc⟩ := hu
      subst hm
      subst hc
      exact ⟨rfl, rfl⟩

theorem issued_updateStepComplete (m m' : model) (details : String) (err : Option String)
    (c : Option Cmd) (hu : updateStepComplete m details err = some (m', c)) :
    c = none ∨
    (c = some (.executeNextStep m.config m.migrationPlan (m.currentStep + 1)) ∧
      m'.currentStep = m.currentStep + 1 ∧ m'.state = m.state ∧ err = none) := by
  cases err with
  | some e => exact Or.inl (updateStepComplete_failed m m' details e c hu).2
  | none =>
    by_cases hlt : m.currentStep + 1 < m.executionSteps.length
    · rw [updateStepComplete_mid m details hlt] at hu
      simp only [Option.some.injEq, Prod.mk.injEq] at hu
      obtain ⟨hm, hc⟩ := hu
      subst hm
      exact Or.inr ⟨hc.symm, rfl, rfl, rfl⟩
    · exact Or.inl (updateStepComplete_done m m' details c (by omega) hu).2

theorem consumed_singleton (op : Cmd) (msg : Msg) (rest : List Cmd)
    (hm : isCompletion msg = true) (h : consumed [op] msg = some rest) :
    rest = [] ∧ answers op msg = true := by
  cases ha : answers op msg
  · simp [consumed, hm, List.find?, ha] at h
  · simp [consumed, hm, List.find?, ha] at h
    exact ⟨h, rfl⟩

theorem consumed_completion (r : Run) (msg : Msg) (rest : List Cmd) (h : awaitsOne r)
    (hm : isCompletion msg = true) (hc : consumed r.outstanding msg = some rest) :
    rest = [] ∧ ∃ op, r.outstanding = [op] ∧ answers op msg = true := by
  rcases h with h0 | ⟨config, ho, _⟩ | ⟨config, ho, _⟩ | ⟨config, plan, ho, _⟩
  · rw [h0] at hc
    simp [consumed, hm] at hc
  · rw [ho] at hc
    exact ⟨(consumed_singleton _ msg rest hm hc).1, _, ho, (consumed_singleton _ msg rest hm hc).2⟩
  · rw [ho] at hc
    exact ⟨(consumed_singleton _ msg rest hm hc).1, _, ho, (consumed_singleton _ msg rest hm hc).2⟩
  · rw [ho] at hc
    exact ⟨(consumed_singleton _ msg rest hm hc).1, _, ho, (consumed_singleton _ msg rest hm hc).2⟩

theorem consumed_input (outstanding rest : List Cmd) (msg : Msg)
    (hm : isCompletion msg = false) (hc : consumed outstanding msg = some rest) :
    rest = outstanding := by
  simp [consumed, hm] at hc
  exact hc.symm

theorem awaitsOne_same (r : Run) (m' : model) (h : awaitsOne r)
    (hs : m'.state = r.session.state) (hc : m'.currentStep = r.session.currentStep) :
    awaitsOne { session := m', outstanding := r.outstanding } := by
  rcases h with h0 | ⟨config, ho, hst⟩ | ⟨config, ho, hst⟩ | ⟨config, plan, ho, hst⟩
  · exact Or.inl h0
  · exact Or.inr (Or.inl ⟨config, ho, hs.trans hst⟩)
  · exact Or.inr (Or.inr (Or.inl ⟨config, ho, hs.trans hst⟩))
  · refine Or.inr (Or.inr (Or.inr ⟨config, plan, ?_, hs.trans hst⟩))
    simp only [hc]
    exact ho

theorem awaitsOne_runStep (ext : Ext) (hw : widgetsOnly ext) (r r' : Run) (msg : Msg)
    (h : awaitsOne r) (hs : runStep ext r msg = some r') : awaitsOne r' := by
  unfold runStep at hs
  split at hs
  · exact absurd hs (by simp)
  · rename_i rest hcons
    split at hs
    · exact absurd hs (by simp)
    · rename_i m' c hu
      simp only [Option.some.injEq] at hs
      subst hs
      cases msg with
      | KeyMsg k =>
        have hrest := consumed_input _ _ _ (by rfl) hcons
        subst hrest
        by_cases h0 : r.outstanding = []
        · rw [h0, List.nil_append]
          rcases issued_key ext hw _ _ k c hu with hi | ⟨config, hi, hst⟩ | ⟨config, hi, hst⟩ |
            ⟨config, plan, hi, hst, hcur⟩
          · exact Or.inl hi
          · exact Or.inr (Or.inl ⟨config, hi, hst⟩)
          · exact Or.inr (Or.inr (Or.inl ⟨config, hi, hst⟩))
          · refine Or.inr (Or.inr (Or.inr ⟨config, plan, ?_, hst⟩))
            simp only [hcur]
            exact hi
        · have hwait : r.session.state = .showingPlan ∨ r.session.state = .executingPlan := by
            rcases h with h1 | ⟨_, _, hst⟩ | ⟨_, _, hst⟩ | ⟨_, _, _, hst⟩
            · exact absurd h1 h0
            · exact Or.inl hst
            · exact Or.inr hst
            · exact Or.inr hst
          obtain ⟨hm, hi⟩ := update_key_waiting ext _ _ k c hwait hu
          rw [hi, List.append_nil, hm]
          exact h
      | TickMsg id =>
        have hrest := consumed_input _ _ _ (by rfl) hcons
        subst hrest
        simp only [Update, Option.some.injEq, Prod.mk.injEq] at hu
        obtain ⟨hm, hc⟩ := hu
        subst hm
        subst hc
        rw [hw.2, List.append_nil]
        exact awaitsOne_same r _ h rfl rfl
      | other tag =>
        have hrest := consumed_input _ _ _ (by rfl) hcons
        subst hrest
        simp only [Update, Option.some.injEq, Prod.mk.injEq] at hu
        obtain ⟨hm, hc⟩ := hu
        subst hm
        subst hc
        simp only [issued, List.append_nil]
        exact h
      | migrationPlanMsg plan err =>
        obtain ⟨hrest, _⟩ := consumed_completion r _ rest h (by rfl) hcons
        subst hrest
        have hc : c = none := by
          cases err <;>
          · simp only [Update, Option.some.injEq, Prod.mk.injEq] at hu
            exact hu.2.symm
        subst hc
        exact Or.inl rfl
      | migrationCompleteMsg err =>
        obtain ⟨hrest, _⟩ := consumed_completion r _ rest h (by rfl) hcons
        subst hrest
        have hc : c = none := by
          cases err <;>
          · simp only [Update, Option.some.injEq, Prod.mk.injEq] at hu
            exact hu.2.symm
        subst hc
        exact Or.inl rfl
      | stepCompleteMsg n details err =>
        obtain ⟨hrest, op, hop, hans⟩ := consumed_completion r _ rest h (by rfl) hcons
        subst hrest
        simp only [Update] at hu
        rcases issued_updateStepComplete r.session m' details err c hu with
          hnone | ⟨hcmd, hcur, hst, _⟩
        · subst hnone
          exact Or.inl rfl
        · subst hcmd
          have hexec : r.session.state = .executingPlan := by
            rcases h with h1 | ⟨_, ho, _⟩ | ⟨_, ho, _⟩ | ⟨_, _, _, hst2⟩
            · rw [h1] at hop
              exact absurd hop (by simp)
            · rw [ho] at hop
              simp only [List.cons.injEq, and_true] at hop
              subst hop
              exact absurd hans (by simp [answers])
            · rw [ho] at hop
              simp only [List.cons.injEq, and_true] at hop
              subst hop
              exact absurd hans (by simp [answers])
            · exact hst2
          refine Or.inr (Or.inr (Or.inr ⟨r.session.config, r.session.migrationPlan, ?_,
            hst.trans hexec⟩))
          simp only [issued, Cmd.operations, List.nil_append, hcur]

theorem awaitsOne_of_runFrom (ext : Ext) (hw : widgetsOnly ext) (msgs : List Msg) (r r' : Run)
    (h : awaitsOne r) (hrun : runFrom ext r msgs = some r') : awaitsOne r' := by
  induction msgs generalizing r with
  | nil =>
    simp only [runFrom, Option.some.injEq] at hrun
    rw [← hrun]
    exact h
  | cons msg rest ih =>
    simp only [runFrom] at hrun
    split at hrun
    · exact absurd hrun (by simp)
    · rename_i r1 h1
      exact ih r1 (awaitsOne_runStep ext hw r r1 msg h h1) hrun

theorem widgetsOnly_typingExt : widgetsOnly typingExt := by
  constructor
  · intro t msg
    cases msg <;> rfl
  · intro s msg
    rfl

/-- C22: in every run from `initialModel` in which a completion event is
delivered only in answer to an operation issued before and not yet answered
(and the widgets return commands of their own), at most one operation is
outstanding after every turn of the event loop; and an `Update` call that
issues the execute-step operation for an index i+1 is one that consumes a
step-completion event without error, delivered in answer to the execute-step
operation for index i, which was the only outstanding operation. -/
theorem single_outstanding_operation (ext : Ext) (hw : widgetsOnly ext) (msgs : List Msg)
    (r : Run) (h : runFrom ext { session := initialModel, outstanding := [] } msgs = some r) :
    r.outstanding.length ≤ 1 ∧
    ∀ (msg : Msg) (rest : List Cmd) (m' : model) (c : Option Cmd) (config : MigrationConfig)
      (plan : Option MigrationPlan) (i : Nat),
      consumed r.outstanding msg = some rest → Update ext r.session msg = some (m', c) →
      Cmd.executeNextStep config plan (i + 1) ∈ issued c →
      (∃ n details, msg = .stepCompleteMsg n details none) ∧
      (∃ config0 plan0, r.outstanding = [.executeNextStep config0 plan0 i]) ∧
      rest = [] ∧ issued c = [.executeNextStep config plan (i + 1)] := by
  have hJ : awaitsOne r :=
    awaitsOne_of_runFrom ext hw msgs _ r (Or.inl rfl) h
  constructor
  · rcases hJ with h0 | ⟨_, ho, _⟩ | ⟨_, ho, _⟩ | ⟨_, _, ho, _⟩ <;> simp [*]
  · intro msg rest m' c config plan i hcons hu hmem
    cases msg with
    | KeyMsg k =>
      rcases issued_key ext hw _ _ k c hu with hi | ⟨_, hi, _⟩ | ⟨_, hi, _⟩ | ⟨_, _, hi, _, _⟩ <;>
        · rw [hi] at hmem
          simp at hmem
    | TickMsg id =>
      simp only [Update, Option.some.injEq, Prod.mk.injEq] at hu
      rw [← hu.2, hw.2] at hmem
      simp at hmem
    | other tag =>
      simp only [Update, Option.some.injEq, Prod.mk.injEq] at hu
      rw [← hu.2] at hmem
      simp [issued] at hmem
    | migrationPlanMsg plan1 err =>
      cases err <;>
      · simp only [Update, Option.some.injEq, Prod.mk.injEq] at hu
        rw [← hu.2] at hmem
        simp [issued] at hmem
    | migrationCompleteMsg err =>
      cases err <;>
      · simp only [Update, Option.some.injEq, Prod.mk.injEq] at hu
        rw [← hu.2] at hmem
        simp [issued] at hmem
    | stepCompleteMsg n details err =>
      obtain ⟨hrest, op, hop, hans⟩ := consumed_completion r _ rest hJ (by rfl) hcons
      simp only [Update] at hu
      rcases issued_updateStepComplete r.session m' details err c hu with
        hnone | ⟨hcmd, _, _, herr⟩
      · rw [hnone] at hmem
        simp [issued] at hmem
      · rw [hcmd] at hmem
        simp only [issued, Cmd.operations, List.mem_singleton, Cmd.executeNextStep.injEq] at hmem
        obtain ⟨hcfg, hplan, hidx⟩ := hmem
        have hi : r.session.currentStep = i := by omega
        refine ⟨⟨n, details, by rw [herr]⟩, ?_, hrest, ?_⟩
        · rcases hJ with h1 | ⟨_, ho, _⟩ | ⟨_, ho, _⟩ | ⟨config0, plan0, ho, _⟩
          · rw [h1] at hop
            exact absurd hop (by simp)
          · rw [ho] at hop
            simp only [List.cons.injEq, and_true] at hop
            subst hop
            exact absurd hans (by simp [answers])
          · rw [ho] at hop
            simp only [List.cons.injEq, and_true] at hop
            subst hop
            exact absurd hans (by simp [answers])
          · exact ⟨config0, plan0, by rw [ho, hi]⟩
        · rw [hcmd, hcfg, hplan, hidx]
          rfl

theorem single_outstanding_operation_witness :
    runFrom typingExt { session := initialModel, outstanding := [] } sampleRunMessages =
      some sampleRun ∧
    sampleRun.outstanding = [.executeNextStep
      { SourceFile := "a.json", TargetFile := "b.json", SourceFormat := "Twilio",
        TargetFormat := "RingCentral", UseAI := true } (some (samplePlan 3 [])) 1] ∧
    (sampleRun.outstanding.length ≤ 1 ∧
    ∀ (msg : Msg) (rest : List Cmd) (m' : model) (c : Option Cmd) (config : MigrationConfig)
      (plan : Option MigrationPlan) (i : Nat),
      consumed sampleRun.outstanding msg = some rest →
      Update typingExt sampleRun.session msg = some (m', c) →
      Cmd.executeNextStep config plan (i + 1) ∈ issued c →
      (∃ n details, msg = .stepCompleteMsg n details none) ∧
      (∃ config0 plan0, sampleRun.outstanding = [.executeNextStep config0 plan0 i]) ∧
      rest = [] ∧ issued c = [.executeNextStep config plan (i + 1)]) :=
  ⟨by decide, by decide,
   single_outstanding_operation typingExt widgetsOnly_typingExt sampleRunMessages sampleRun
    (by decide)⟩

end MigrationProto
